import Mathlib
/-!
# Verification of `MetaOffPolicyAlgorithm` (stable_baselines3, meta off-policy core)

A shallow embedding of `stable_baselines3/common/meta_off_policy_algorithm.py`:
the buffer-pool setup, the meta-training loop (`learn`), the sample
orchestrator (`collect_data` / `obtain_samples`) and the rollout collector
(`collect_rollouts`), with theorems about their control flow and counters.

Modelling conventions:
* The Python `while` loops may diverge for degenerate arguments, so every
  loop takes a `fuel : Nat` argument and returns an `Option`-like result;
  a `none` / `fuelOut` result means the fuel bound was exhausted, and all
  theorems are partial-correctness statements conditioned on termination.
* Machine floats appear only as the `np.inf` sentinels of
  `max_samples` / `max_trajs` / `update_posterior_rate` (modelled by
  `NumInf`) and as rewards (the claims treated here involve no rounding, so
  rewards are modelled as `Int` and the `np.mean` of `collect_rollouts` as
  an exact `Rat`).
* External collaborators (environment, actor network, callback, RNG) are
  modelled as deterministic oracles bundled in `Ctx`, and their method
  calls (`clear_z`, `sample_z`, `infer_posterior`, `update_context`,
  `reset_noise`, `env.reset`, `env.step`, `env_method("reset_task", i)`,
  buffer `add` / `reset`, `_do_training`) are recorded in an append-only
  event `trace` inside the algorithm state, so that ordering and cadence
  properties can be stated about it.
-/
namespace MetaOffPolicy
/-! ## Event classes used by the trace theorems -/
/-! ## Concrete collaborators for witnesses and counterexamples -/
/-! ## Trace and counter infrastructure -/
/-- A Python number that is either a finite natural or the `np.inf` sentinel
(used for `max_samples`, `max_trajs` and `update_posterior_rate`). -/
inductive NumInf where
  | fin (n : Nat)
  | inf
deriving DecidableEq, Repr
/-- The comparison `k < m` between a running counter `k` and a
possibly-infinite bound `m` (Python `k < np.inf` is `True`). -/
def NumInf.ltN (k : Nat) : NumInf → Bool
  | NumInf.fin n => decide (k < n)
  | NumInf.inf => true
/-- The possible outcomes of a Python hook call `callback.on_step()`:
the exact singleton `False`, the exact singleton `True` (standing for any
truthy value), `None`, or the hook raising an exception. -/
inductive HookRet where
  | retNone
  | retTrue
  | retFalse
  | retRaises
deriving DecidableEq, Repr
/-- A reference into one of the three per-task buffer pools
(`RBList_replay`, `RBList_encoder`, `RBList_eval`). Python passes buffer
objects by reference; in the embedding a reference names the pool slot. -/
inductive BufRef where
  | replayRef (i : Nat)
  | encoderRef (i : Nat)
  | evalRef (i : Nat)
deriving DecidableEq, Repr
/-- Observable collaborator calls, recorded in the state's event trace in
program order. -/
inductive Event where
  | envReset
  | envStep (o a : Int)
  | resetTask (i : Nat)
  | clearZ
  | sampleZ
  | inferPosterior
  | updateContext
  | resetNoise
  | setZPrior
  | setContextNone
  | bufReset (r : BufRef)
  | bufAdd (r : BufRef)
  | doTrain
deriving DecidableEq, Repr
/-- One stored transition `(obs, next_obs, action, reward, done)`; the
`infos` dict carries no data used by the claims and is omitted. -/
structure Transition where
  obs : Int
  next_obs : Int
  action : Int
  reward : Int
  dn : Bool
deriving DecidableEq, Repr
/-- Modelled from the spec: the `ReplayBuffer` collaborator (its class is
defined outside this file; the spec describes it as a "fixed-capacity
circular store of transitions" exposing `add` and `reset`, with a freshly
constructed buffer holding zero stored transitions). -/
structure ReplayBuffer where
  capacity : Nat
  stored : List Transition
  pos : Nat
deriving DecidableEq, Repr
/-- Modelled from the spec: constructing `ReplayBuffer(buffer_size, ...)`
yields an empty buffer of the given capacity. -/
def ReplayBuffer.init (capacity : Nat) : ReplayBuffer :=
  { capacity := capacity, stored := [], pos := 0 }
/-- Modelled from the spec: `reset()` discards all stored transitions. -/
def ReplayBuffer.reset (b : ReplayBuffer) : ReplayBuffer :=
  { capacity := b.capacity, stored := [], pos := 0 }
/-- Modelled from the spec: `add` appends a transition, overwriting the
oldest one once the fixed capacity is reached (circular-overwrite). -/
def ReplayBuffer.add (b : ReplayBuffer) (t : Transition) : ReplayBuffer :=
  if b.stored.length < b.capacity then
    { capacity := b.capacity, stored := b.stored ++ [t], pos := (b.pos + 1) % b.capacity }
  else
    { capacity := b.capacity, stored := b.stored.tail ++ [t], pos := (b.pos + 1) % b.capacity }
/-- The mutable fields of a `MetaOffPolicyAlgorithm` instance used by the
claims, plus the append-only event trace. -/
structure AlgoState where
  num_timesteps : Nat
  episode_num : Nat
  n_env_steps_total : Nat
  n_train_steps_total : Nat
  task_idx : Nat
  initial_experience : Bool
  rng_count : Nat
  RBList_replay : List ReplayBuffer
  RBList_encoder : List ReplayBuffer
  RBList_eval : List ReplayBuffer
  trace : List Event
deriving DecidableEq, Repr
/-- Record one collaborator call in the event trace. -/
def AlgoState.push (st : AlgoState) (e : Event) : AlgoState :=
  { st with trace := st.trace ++ [e] }
/-- The hyperparameters read by the embedded functions. In the source they
are constructor arguments plus the constants hard-coded in `_setup_model`
(see `defaultConfig`). -/
structure Config where
  n_traintasks : Nat
  n_evaltasks : Nat
  buffer_size : Nat
  max_path_length : Nat
  num_initial_steps : Nat
  num_train_steps_per_itr : Nat
  num_steps_prior : Nat
  num_steps_posterior : Nat
  num_extra_rl_steps_posterior : Nat
  update_post_train : Nat
  num_tasks_sample : Nat
  meta_batch : Nat
  use_sde : Bool
  sde_sample_freq : Int
deriving DecidableEq, Repr
/-- The constants hard-coded in `_setup_model` (`base_length = 100`), for
two training tasks and one eval task. -/
def defaultConfig (n_traintasks n_evaltasks : Nat) : Config :=
  { n_traintasks := n_traintasks
    n_evaltasks := n_evaltasks
    buffer_size := 1000000
    max_path_length := 100
    num_initial_steps := 1000
    num_train_steps_per_itr := 2000
    num_steps_prior := 200
    num_steps_posterior := 0
    num_extra_rl_steps_posterior := 300
    update_post_train := 1
    num_tasks_sample := 5
    meta_batch := 16
    use_sde := false
    sde_sample_freq := -1 }
/-- The environment collaborator: a deterministic single-instance vectorized
environment (`num_envs == 1`), with `reset` yielding a fixed initial
observation and `step` a function of the current observation and action,
returning `(next_obs, reward, done)`. The claims fix a deterministic policy
and environment, so this memoryless deterministic model suffices. -/
structure Env where
  reset_obs : Int
  step : Int → Int → Int × Int × Bool
/-- The callback collaborator. `on_step` and `update_locals` are indexed by
the value of `num_timesteps` at the call, so a hook may behave differently
at each step; `update_locals_raises k = true` means the `update_locals`
call raises (in which case `on_step` is never reached inside the `try`
block). The return values of `on_rollout_start` / `on_rollout_end` are
ignored by the source and their exceptions are caught at the call site, so
only their (effect-free) raise flags are kept. -/
structure Callback where
  on_step : Nat → HookRet
  update_locals_raises : Nat → Bool
  on_rollout_start_raises : Bool
  on_rollout_end_raises : Bool
/-- The full collaborator bundle: hyperparameters, environment, the actor's
deterministic action function `get_action`, the callback, and the
`np.random` stream (an oracle indexed by a draw counter; `randint(n)` is
modelled as `rng k % n`, which for `n = 0` silently wraps where Python
would raise — theorems about task sampling therefore assume
`0 < n_traintasks`). -/
structure Ctx where
  cfg : Config
  env : Env
  policy : Int → Int
  cb : Callback
  rng : Nat → Nat
/-- The `RolloutReturn` record `(mean_reward, total_steps, total_episodes,
continue_training)` produced by `collect_rollouts`. -/
structure RolloutReturn where
  mean_reward : Rat
  total_steps : Nat
  total_episodes : Nat
  continue_training : Bool
deriving DecidableEq, Repr
/-- The local variables of `collect_rollouts` threaded through its loops:
current observation `o`, the `total_steps` / `total_episodes` counters, the
`episode_rewards` list, the episode-length list (called `total_timesteps`
in the source, shadowing the argument of `learn`), and the algorithm
state. -/
structure RState where
  o : Int
  total_steps : Nat
  total_episodes : Nat
  episode_rewards : List Int
  episode_lengths : List Nat
  st : AlgoState
deriving DecidableEq, Repr
/-- How the inner per-episode loop of `collect_rollouts` exited:
`cancelled` is the early `return` when `on_step()` is exactly `False`;
`viaCond` is the `while not done` condition failing (the episode ended by
`done` on the previous iteration); `viaBreak` is the `break` taken when
`0 < n_steps <= total_steps`, carrying the `done` flag of the final step
(the episode-end bookkeeping of the break branch has already been applied
to the carried `rs`). -/
inductive EpExit where
  | cancelled (ret : RolloutReturn) (st : AlgoState)
  | viaCond (episode_reward : Int) (episode_timesteps : Nat) (rs : RState)
  | viaBreak (dn : Bool) (episode_reward : Int) (episode_timesteps : Nat) (rs : RState)
deriving DecidableEq, Repr
/-- The four episode-end bookkeeping lines of `collect_rollouts`
(`total_episodes += 1; self._episode_num += 1;
episode_rewards.append(episode_reward);
total_timesteps.append(episode_timesteps)`), shared verbatim by the
truncation-break branch and the `if done:` branch. -/
def recordEpisode (episode_reward : Int) (episode_timesteps : Nat) (rs : RState) : RState :=
  { rs with
      total_episodes := rs.total_episodes + 1
      episode_rewards := rs.episode_rewards ++ [episode_reward]
      episode_lengths := rs.episode_lengths ++ [episode_timesteps]
      st := { rs.st with episode_num := rs.st.episode_num + 1 } }
/-- Replace the buffer at index `i` (Python's in-place mutation of the
list element; an out-of-range index is a no-op here, where Python would
raise — the call sites keep indices in range). -/
def listModify (l : List ReplayBuffer) (i : Nat) (f : ReplayBuffer → ReplayBuffer) :
    List ReplayBuffer :=
  match l[i]? with
  | some b => l.set i (f b)
  | none => l
/-- One `RB.add(...)` call on the pool slot named by `r`, recorded in the
trace. -/
def writeBuf (st : AlgoState) (r : BufRef) (t : Transition) : AlgoState :=
  let st := st.push (Event.bufAdd r)
  match r with
  | BufRef.replayRef i =>
      { st with RBList_replay := listModify st.RBList_replay i (fun b => b.add t) }
  | BufRef.encoderRef i =>
      { st with RBList_encoder := listModify st.RBList_encoder i (fun b => b.add t) }
  | BufRef.evalRef i =>
      { st with RBList_eval := listModify st.RBList_eval i (fun b => b.add t) }
/-- The `for RB in replay_buffer: RB.add(...)` loop of `collect_rollouts`. -/
def storeTransition (bufs : List BufRef) (t : Transition) (st : AlgoState) : AlgoState :=
  bufs.foldl (fun s r => writeBuf s r t) st
/-- The state effects of one environment step of `collect_rollouts`, up to
and including the `self.num_timesteps += 1` increment: the conditional
gSDE noise resample, the `env.step` call, the conditional
`actor.update_context`, and the `num_timesteps` increment. -/
def stepEffects (c : Ctx) (accum_context : Bool) (total_steps : Nat) (o a : Int)
    (st : AlgoState) : AlgoState :=
  let st :=
    if c.cfg.use_sde ∧ 0 < c.cfg.sde_sample_freq ∧
        (total_steps : Int) % c.cfg.sde_sample_freq = 0
    then st.push Event.resetNoise else st
  let st := st.push (Event.envStep o a)
  let st := if accum_context then st.push Event.updateContext else st
  { st with num_timesteps := st.num_timesteps + 1 }
/-- The inner `while not done:` loop of `collect_rollouts` (source lines
725-785). Per step: optional gSDE resample, `actor.get_action`,
`env.step`, optional context accumulation, counter increments, the guarded
callback (`update_locals` then `on_step() is False` early return, any hook
exception caught), reward accumulation, buffer writes, observation update,
and the `0 < n_steps <= total_steps` truncation break whose branch runs
the episode-end bookkeeping before breaking. (`_update_info_buffer`,
`_update_current_progress_remaining` and the no-op `_on_step` touch only
logging state and are not modelled.) -/
def innerLoop (c : Ctx) (accum_context : Bool) (bufs : List BufRef) (n_steps : Int) :
    Nat → Bool → Int → Nat → RState → Option EpExit
  | 0, _, _, _, _ => none
  | fuel + 1, dn, episode_reward, episode_timesteps, rs =>
    if dn then some (EpExit.viaCond episode_reward episode_timesteps rs) else
      let a := c.policy rs.o
      let sr := c.env.step rs.o a
      let st := stepEffects c accum_context rs.total_steps rs.o a rs.st
      let episode_timesteps1 := episode_timesteps + 1
      let total_steps1 := rs.total_steps + 1
      if c.cb.update_locals_raises st.num_timesteps = false ∧
          c.cb.on_step st.num_timesteps = HookRet.retFalse then
        some (EpExit.cancelled
          { mean_reward := 0, total_steps := total_steps1,
            total_episodes := rs.total_episodes, continue_training := false } st)
      else
        let episode_reward1 := episode_reward + sr.2.1
        let st1 := storeTransition bufs
          { obs := rs.o, next_obs := sr.1, action := a, reward := sr.2.1, dn := sr.2.2 } st
        let rs1 : RState :=
          { o := sr.1, total_steps := total_steps1, total_episodes := rs.total_episodes,
            episode_rewards := rs.episode_rewards, episode_lengths := rs.episode_lengths,
            st := st1 }
        if 0 < n_steps ∧ n_steps ≤ (total_steps1 : Int) then
          some (EpExit.viaBreak sr.2.2 episode_reward1 episode_timesteps1
            (recordEpisode episode_reward1 episode_timesteps1 rs1))
        else
          innerLoop c accum_context bufs n_steps fuel sr.2.2 episode_reward1
            episode_timesteps1 rs1
/-- The result of one iteration of the outer episode loop. -/
inductive EpRes where
  | cancelled (ret : RolloutReturn) (st : AlgoState)
  | finished (rs : RState)
deriving DecidableEq, Repr
/-- One iteration of the outer episode loop of `collect_rollouts`: run the
inner loop starting from `done = False`, `episode_reward = 0.0`,
`episode_timesteps = 0`, then apply the `if done:` episode-end block
(which runs both after a normal `while not done` exit and after a break
whose final step had `done` true — hence the double bookkeeping in the
coincident case). The `action_noise.reset()` and `_dump_logs()` calls of
that block touch only the noise and logger collaborators and are not
modelled. -/
def runEpisode (c : Ctx) (accum_context : Bool) (bufs : List BufRef) (n_steps : Int)
    (fuel : Nat) (rs : RState) : Option EpRes :=
  match innerLoop c accum_context bufs n_steps fuel false 0 0 rs with
  | none => none
  | some (EpExit.cancelled ret st) => some (EpRes.cancelled ret st)
  | some (EpExit.viaCond epR epS rs) => some (EpRes.finished (recordEpisode epR epS rs))
  | some (EpExit.viaBreak dn epR epS rs) =>
      some (EpRes.finished (if dn then recordEpisode epR epS rs else rs))
/-- The `np.mean(episode_rewards) if total_episodes > 0 else 0.0` final
computation of `collect_rollouts`, as an exact rational. -/
def meanReward (rewards : List Int) (total_episodes : Nat) : Rat :=
  if 0 < total_episodes then ((rewards.sum : Int) : Rat) / (rewards.length : Rat) else 0
/-- The outer `while total_steps < n_steps and total_episodes < n_episodes`
loop of `collect_rollouts`, ending with the mean-reward computation and the
`RolloutReturn` (with `continue_training = True` on every non-cancelled
exit; the final guarded `update_locals` / `on_rollout_end` hook calls have
their exceptions caught and no other effect). -/
def outerLoop (c : Ctx) (accum_context : Bool) (bufs : List BufRef) (n_steps : Int)
    (n_episodes : Nat) : Nat → RState → Option (RolloutReturn × AlgoState)
  | 0, _ => none
  | fuel + 1, rs =>
    if (rs.total_steps : Int) < n_steps ∧ rs.total_episodes < n_episodes then
      match runEpisode c accum_context bufs n_steps (fuel + 1) rs with
      | none => none
      | some (EpRes.cancelled ret st) => some (ret, st)
      | some (EpRes.finished rs) =>
          outerLoop c accum_context bufs n_steps n_episodes fuel rs
    else
      some ({ mean_reward := meanReward rs.episode_rewards rs.total_episodes,
              total_steps := rs.total_steps, total_episodes := rs.total_episodes,
              continue_training := true }, rs.st)
/-- `collect_rollouts` (source lines 677-808): after the optional gSDE
noise reset and the guarded `on_rollout_start` hook (exception caught, no
other effect), reset the environment exactly once and enter the episode
loops with empty statistics. -/
def collect_rollouts (c : Ctx) (n_episodes : Nat) (n_steps : Int) (accum_context : Bool)
    (bufs : List BufRef) (fuel : Nat) (st : AlgoState) :
    Option (RolloutReturn × AlgoState) :=
  let st := if c.cfg.use_sde then st.push Event.resetNoise else st
  let st := st.push Event.envReset
  outerLoop c accum_context bufs n_steps n_episodes fuel
    { o := c.env.reset_obs, total_steps := 0, total_episodes := 0,
      episode_rewards := [], episode_lengths := [], st := st }
/-- Result of `obtain_samples`: fuel exhaustion, the `assert` failure (both
bounds infinite) carrying the state at the raise, or normal completion with
the accumulated `n_steps_total`. -/
inductive OSRes where
  | fuelOut
  | assertFail (st : AlgoState)
  | ok (n : Nat) (st : AlgoState)
deriving DecidableEq, Repr
/-- The `while n_steps_total < max_samples and n_trajs < max_trajs` loop of
`obtain_samples`: each iteration collects one rollout of
`n_episodes = 1, n_steps = max_path_length`, adds `max_path_length` to
`n_steps_total` regardless of the steps actually taken, increments
`n_trajs`, and calls `actor.sample_z()` when `n_trajs % resample == 0`
(Python raises `ZeroDivisionError` for `resample = 0`; the embedding guards
that case and the cadence theorems assume `0 < resample`). -/
def osLoop (c : Ctx) (max_samples max_trajs : NumInf) (accum_context : Bool)
    (resample : Nat) (bufs : List BufRef) :
    Nat → Nat → Nat → AlgoState → OSRes
  | 0, _, _, _ => OSRes.fuelOut
  | fuel + 1, n_steps_total, n_trajs, st =>
    if NumInf.ltN n_steps_total max_samples && NumInf.ltN n_trajs max_trajs then
      match collect_rollouts c 1 (c.cfg.max_path_length : Int) accum_context bufs
          (fuel + 1) st with
      | none => OSRes.fuelOut
      | some (_, st) =>
        let n := n_steps_total + c.cfg.max_path_length
        let t := n_trajs + 1
        let st := if resample ≠ 0 ∧ t % resample = 0 then st.push Event.sampleZ else st
        osLoop c max_samples max_trajs accum_context resample bufs fuel n t st
    else OSRes.ok n_steps_total st
/-- `obtain_samples` (source lines 512-540): the
`assert max_samples < np.inf or max_trajs < np.inf` precondition comes
first (before any environment interaction), then the trajectory loop. -/
def obtain_samples (c : Ctx) (max_samples max_trajs : NumInf) (accum_context : Bool)
    (resample : Nat) (bufs : List BufRef) (fuel : Nat) (st : AlgoState) : OSRes :=
  if max_samples = NumInf.inf ∧ max_trajs = NumInf.inf then OSRes.assertFail st
  else osLoop c max_samples max_trajs accum_context resample bufs fuel 0 0 st
/-- Result of `collect_data` (and of the `learn` phases built from it). -/
inductive CDRes where
  | fuelOut
  | assertFail (st : AlgoState)
  | done (st : AlgoState)
deriving DecidableEq, Repr
/-- Sequencing of phase results (a failure aborts the rest, as a raised
exception would in Python). -/
def CDRes.bind (r : CDRes) (f : AlgoState → CDRes) : CDRes :=
  match r with
  | CDRes.fuelOut => CDRes.fuelOut
  | CDRes.assertFail s => CDRes.assertFail s
  | CDRes.done s => f s
/-- Modelled from the spec: `sample_context(idx)` (defined outside this
file) "draws a context batch from the encoder buffer for the active task";
it reads the task's encoder buffer and mutates nothing. -/
def sample_context (st : AlgoState) (i : Nat) : List Transition :=
  match st.RBList_encoder[i]? with
  | some b => b.stored
  | none => []
/-- The actor collaborator's `infer_posterior(context)` call: recorded in
the trace (the posterior parameters live inside the actor network). -/
def actorInferPosterior (st : AlgoState) (_context : List Transition) : AlgoState :=
  st.push Event.inferPosterior
/-- The buffer routing of `collect_data`: the active task's replay buffer,
plus its encoder buffer when `add_to_enc_buffer`. -/
def cdBufs (add_to_enc_buffer : Bool) (i : Nat) : List BufRef :=
  if add_to_enc_buffer then [BufRef.replayRef i, BufRef.encoderRef i]
  else [BufRef.replayRef i]
/-- The `while num_transitions < num_samples` loop of `collect_data`: each
iteration calls `obtain_samples` with the remaining quota as `max_samples`
and `update_posterior_rate` as `max_trajs`, routing transitions into the
active task's replay buffer (plus its encoder buffer when
`add_to_enc_buffer`); then, when `update_posterior_rate != np.inf`, draws a
context batch and calls `infer_posterior`; finally the accumulated
`num_transitions` is added to `_n_env_steps_total`. -/
def cdLoop (c : Ctx) (num_samples resample_z_rate : Nat)
    (update_posterior_rate : NumInf) (add_to_enc_buffer : Bool) :
    Nat → Nat → AlgoState → CDRes
  | 0, _, _ => CDRes.fuelOut
  | fuel + 1, num_transitions, st =>
    if num_transitions < num_samples then
      match obtain_samples c (NumInf.fin (num_samples - num_transitions))
          update_posterior_rate false resample_z_rate
          (cdBufs add_to_enc_buffer st.task_idx) (fuel + 1) st with
      | OSRes.fuelOut => CDRes.fuelOut
      | OSRes.assertFail s => CDRes.assertFail s
      | OSRes.ok n st =>
        let st :=
          if update_posterior_rate ≠ NumInf.inf then
            actorInferPosterior st (sample_context st st.task_idx)
          else st
        cdLoop c num_samples resample_z_rate update_posterior_rate add_to_enc_buffer
          fuel (num_transitions + n) st
    else
      CDRes.done { st with n_env_steps_total := st.n_env_steps_total + num_transitions }
/-- `collect_data` (source lines 475-509): start from the prior
(`actor.clear_z()`), then the sampling loop. -/
def collect_data (c : Ctx) (num_samples resample_z_rate : Nat)
    (update_posterior_rate : NumInf) (add_to_enc_buffer : Bool) (fuel : Nat)
    (st : AlgoState) : CDRes :=
  cdLoop c num_samples resample_z_rate update_posterior_rate add_to_enc_buffer fuel 0
    (st.push Event.clearZ)
/-- The buffer-pool construction of `_setup_model` (source lines 199-228):
three freshly allocated arrays of fresh buffers, of lengths
`n_traintasks`, `n_traintasks` and `n_evaltasks` (the source builds
`[None] * n` and assigns a fresh `ReplayBuffer` to every slot). The rest of
`_setup_model` (hyperparameters, policy construction, `JUST_EVAL`) touches
no pool and is kept in `Config` / out of scope. -/
def setup_model_buffers (cfg : Config) (st : AlgoState) : AlgoState :=
  { st with
      RBList_replay := List.replicate cfg.n_traintasks (ReplayBuffer.init cfg.buffer_size)
      RBList_encoder := List.replicate cfg.n_traintasks (ReplayBuffer.init cfg.buffer_size)
      RBList_eval := List.replicate cfg.n_evaltasks (ReplayBuffer.init cfg.buffer_size) }
/-- `reset_buffers` (source lines 367-394): every slot of all three pools
is reassigned a freshly constructed buffer. The source iterates indices
`range(n_traintasks)` / `range(n_evaltasks)`; under the pool-length
invariant established by `_setup_model` this replaces every slot, modelled
here as a map over each pool. -/
def reset_buffers (cfg : Config) (st : AlgoState) : AlgoState :=
  { st with
      RBList_replay := st.RBList_replay.map fun _ => ReplayBuffer.init cfg.buffer_size
      RBList_encoder := st.RBList_encoder.map fun _ => ReplayBuffer.init cfg.buffer_size
      RBList_eval := st.RBList_eval.map fun _ => ReplayBuffer.init cfg.buffer_size }
/-- The bootstrap task loop of `learn` (lines 432-435): for each training
task index in order, set `task_idx`, switch the environment task, and
collect `num_initial_steps` transitions with `resample_z_rate = 1` and
`update_posterior_rate = np.inf` (no trajectory bound). -/
def bootLoop (c : Ctx) (fuel : Nat) : List Nat → AlgoState → CDRes
  | [], st => CDRes.done st
  | idx :: rest, st =>
    let st := { st with task_idx := idx }
    let st := st.push (Event.resetTask idx)
    (collect_data c c.cfg.num_initial_steps 1 NumInf.inf true fuel st).bind fun st =>
      bootLoop c fuel rest st
/-- The head of one task-sampling round of `learn` (lines 441-444): draw
`idx = np.random.randint(n_traintasks)` (modelled as `rng k % n`), set
`task_idx`, switch the environment task, and reset that task's encoder
buffer. -/
def roundPrelude (c : Ctx) (st : AlgoState) : AlgoState :=
  let idx := c.rng st.rng_count % c.cfg.n_traintasks
  let st := { st with rng_count := st.rng_count + 1, task_idx := idx }
  let st := st.push (Event.resetTask idx)
  let st := { st with RBList_encoder := listModify st.RBList_encoder idx ReplayBuffer.reset }
  st.push (Event.bufReset (BufRef.encoderRef idx))
/-- The three conditional collection phases of one task-sampling round
(lines 446-454): prior-context steps, posterior-context steps, and extra
RL steps excluded from the encoder buffer. -/
def collectPhases (c : Ctx) (fuel : Nat) (st : AlgoState) : CDRes :=
  (if 0 < c.cfg.num_steps_prior then
      collect_data c c.cfg.num_steps_prior 1 NumInf.inf true fuel st
    else CDRes.done st).bind fun st =>
  (if 0 < c.cfg.num_steps_posterior then
      collect_data c c.cfg.num_steps_posterior 1 (NumInf.fin c.cfg.update_post_train) true
        fuel st
    else CDRes.done st).bind fun st =>
  (if 0 < c.cfg.num_extra_rl_steps_posterior then
      collect_data c c.cfg.num_extra_rl_steps_posterior 1
        (NumInf.fin c.cfg.update_post_train) false fuel st
    else CDRes.done st)
/-- One task-sampling round of `learn` (lines 440-454). -/
def samplingRound (c : Ctx) (fuel : Nat) (st : AlgoState) : CDRes :=
  collectPhases c fuel (roundPrelude c st)
/-- The `for i in range(num_tasks_sample)` loop of `learn`. -/
def roundsLoop (c : Ctx) (fuel : Nat) : Nat → AlgoState → CDRes
  | 0, st => CDRes.done st
  | k + 1, st => (samplingRound c fuel st).bind fun st => roundsLoop c fuel k st
/-- The gradient phase of `learn` (lines 458-463): each step draws a
meta-batch of task indices (consuming `meta_batch` RNG draws), delegates to
the external `_do_training` collaborator (recorded as a `doTrain` event),
and increments `_n_train_steps_total` by one. -/
def gradLoop (c : Ctx) : Nat → AlgoState → AlgoState
  | 0, st => st
  | k + 1, st =>
      gradLoop c k
        { st with
            rng_count := st.rng_count + c.cfg.meta_batch
            n_train_steps_total := st.n_train_steps_total + 1
            trace := st.trace ++ [Event.doTrain] }
/-- `learn` (source lines 396-473): the `for it_ in range(1)` meta loop runs
exactly once. Bootstrap (only when `initial_experience` is false): reset
the actor's latent distribution to the standard prior
(`z_means = 0, z_vars = 1`), `sample_z()`, clear the context, run the
bootstrap task loop over `range(n_traintasks)`, then mark
`initial_experience = True`. Then `num_tasks_sample` sampling rounds, then
the gradient phase. (`_setup_learn`, the `on_training_start` /
`on_training_end` hooks, `_dump_logs` and the loss-accumulator clearing
touch only external logging state and are not modelled.) -/
def learn (c : Ctx) (fuel : Nat) (st : AlgoState) : CDRes :=
  (if st.initial_experience = false then
      let st := ((st.push Event.setZPrior).push Event.sampleZ).push Event.setContextNone
      (bootLoop c fuel (List.range c.cfg.n_traintasks) st).bind fun st =>
        CDRes.done { st with initial_experience := true }
    else CDRes.done st).bind fun st =>
  (roundsLoop c fuel c.cfg.num_tasks_sample st).bind fun st =>
  CDRes.done (gradLoop c c.cfg.num_train_steps_per_itr st)
/-- Events emitted inside the episode loops of `collect_rollouts`
(everything it can append after the initial `env.reset`). -/
def rolloutEvent : Event → Bool
  | Event.envStep _ _ => true
  | Event.updateContext => true
  | Event.resetNoise => true
  | Event.bufAdd _ => true
  | _ => false
/-- Events a whole `collect_rollouts` call can append (the episode-loop
events plus the single leading `envReset`). -/
def rolloutFullEvent : Event → Bool
  | Event.envReset => true
  | e => rolloutEvent e
/-- Events an `obtain_samples` call can append (rollout events plus the
`sample_z` cadence events). -/
def osEvent : Event → Bool
  | Event.sampleZ => true
  | e => rolloutFullEvent e
/-- Events a `collect_data` call can append (obtain-samples events plus the
leading `clear_z` and the posterior updates). -/
def collectEvent : Event → Bool
  | Event.clearZ => true
  | Event.inferPosterior => true
  | e => osEvent e
/-- The trace an `obtain_samples` loop produces from trajectory blocks
`bs`, starting after `j` already-completed trajectories: each block is
followed by a `sample_z` event exactly when its (1-based) trajectory index
is divisible by `resample`. -/
def cadenceBlocks (resample : Nat) : Nat → List (List Event) → List Event
  | _, [] => []
  | j, b :: bs =>
      b ++ (if (j + 1) % resample = 0 then [Event.sampleZ] else []) ++
        cadenceBlocks resample (j + 1) bs
/-- A callback whose hooks return `None` and never raise. -/
def silentCallback : Callback :=
  { on_step := fun _ => HookRet.retNone, update_locals_raises := fun _ => false,
    on_rollout_start_raises := false, on_rollout_end_raises := false }
/-- A callback all of whose hooks raise. -/
def raisingCallback : Callback :=
  { on_step := fun _ => HookRet.retRaises, update_locals_raises := fun _ => true,
    on_rollout_start_raises := true, on_rollout_end_raises := true }
/-- A callback whose `on_step` returns exactly `False` at every step. -/
def cancellingCallback : Callback :=
  { on_step := fun _ => HookRet.retFalse, update_locals_raises := fun _ => false,
    on_rollout_start_raises := false, on_rollout_end_raises := false }
/-- A small test environment that never terminates an episode. -/
def testEnv : Env := { reset_obs := 0, step := fun o _ => (o + 1, 1, false) }
/-- An environment that terminates every episode on its first step. -/
def doneEnv : Env := { reset_obs := 0, step := fun o _ => (o + 1, 1, true) }
/-- A small hyperparameter set (two training tasks, trajectories of length
two) keeping concrete evaluations tiny. -/
def testConfig : Config :=
  { n_traintasks := 2, n_evaltasks := 1, buffer_size := 4, max_path_length := 2,
    num_initial_steps := 2, num_train_steps_per_itr := 3, num_steps_prior := 2,
    num_steps_posterior := 0, num_extra_rl_steps_posterior := 2, update_post_train := 1,
    num_tasks_sample := 2, meta_batch := 2, use_sde := false, sde_sample_freq := -1 }
/-- A fresh algorithm state matching `testConfig`'s pools. -/
def st0 : AlgoState :=
  { num_timesteps := 0, episode_num := 0, n_env_steps_total := 0,
    n_train_steps_total := 0, task_idx := 0, initial_experience := false, rng_count := 0,
    RBList_replay := List.replicate 2 (ReplayBuffer.init 4),
    RBList_encoder := List.replicate 2 (ReplayBuffer.init 4),
    RBList_eval := List.replicate 1 (ReplayBuffer.init 4),
    trace := [] }
/-- The standard test context. -/
def cT : Ctx :=
  { cfg := testConfig, env := testEnv, policy := fun _ => 0, cb := silentCallback,
    rng := fun _ => 1 }
/-- Test context whose environment ends every episode immediately. -/
def cDone : Ctx :=
  { cfg := testConfig, env := doneEnv, policy := fun _ => 0, cb := silentCallback,
    rng := fun _ => 0 }
/-- Test context with all hooks raising. -/
def cRaise : Ctx :=
  { cfg := testConfig, env := testEnv, policy := fun _ => 0, cb := raisingCallback,
    rng := fun _ => 0 }
/-- Test context whose per-step hook cancels. -/
def cCancel : Ctx :=
  { cfg := testConfig, env := testEnv, policy := fun _ => 0, cb := cancellingCallback,
    rng := fun _ => 0 }
/-- `s'` extends the trace of `s` by events all satisfying `P`. -/
def TraceExt (P : Event → Bool) (s s' : AlgoState) : Prop :=
  ∃ d, s'.trace = s.trace ++ d ∧ ∀ e ∈ d, P e = true
/-- The fields of the algorithm state preserved by the whole rollout layer
(`_n_env_steps_total`, `_n_train_steps_total`, `initial_experience`,
`task_idx` and the RNG draw counter). -/
def SameCounters (s s' : AlgoState) : Prop :=
  s'.n_env_steps_total = s.n_env_steps_total ∧
  s'.n_train_steps_total = s.n_train_steps_total ∧
  s'.initial_experience = s.initial_experience ∧
  s'.task_idx = s.task_idx ∧
  s'.rng_count = s.rng_count
/-- Relation between the inner loop's entry state and its current state
before any episode-end bookkeeping: only rollout step events were emitted,
the rollout-layer counters are untouched, and no episode was recorded. -/
def InnerInv (rs rs1 : RState) : Prop :=
  TraceExt rolloutEvent rs.st rs1.st ∧ SameCounters rs.st rs1.st ∧
  rs1.st.episode_num = rs.st.episode_num ∧
  rs1.total_episodes = rs.total_episodes ∧
  rs1.episode_rewards = rs.episode_rewards ∧
  rs1.episode_lengths = rs.episode_lengths
/-- Postcondition of the inner episode loop relative to its entry state
`rs`: a cancellation records nothing and returns the sentinel
`RolloutReturn`; a `while not done` exit records nothing (the `if done:`
block has not run yet); a break exit has recorded exactly one episode. -/
def InnerPost (rs : RState) : EpExit → Prop
  | EpExit.cancelled ret st1 =>
      TraceExt rolloutEvent rs.st st1 ∧ SameCounters rs.st st1 ∧
      st1.episode_num = rs.st.episode_num ∧
      ret.mean_reward = 0 ∧ ret.total_episodes = rs.total_episodes ∧
      ret.continue_training = false
  | EpExit.viaCond _ _ rs1 => InnerInv rs rs1
  | EpExit.viaBreak _ _ _ rs1 =>
      TraceExt rolloutEvent rs.st rs1.st ∧ SameCounters rs.st rs1.st ∧
      rs1.st.episode_num = rs.st.episode_num + 1 ∧
      rs1.total_episodes = rs.total_episodes + 1 ∧
      (∃ r s, rs1.episode_rewards = rs.episode_rewards ++ [r] ∧
              rs1.episode_lengths = rs.episode_lengths ++ [s])
/-- Postcondition of one outer-loop iteration (`runEpisode`) relative to its
entry state: a cancellation returns the sentinel with nothing recorded; a
finished episode leaves the episode-number delta equal to the
`total_episodes` delta. -/
def EpPost (rs : RState) : EpRes → Prop
  | EpRes.cancelled ret st1 =>
      TraceExt rolloutEvent rs.st st1 ∧ SameCounters rs.st st1 ∧
      st1.episode_num = rs.st.episode_num ∧
      ret.mean_reward = 0 ∧ ret.total_episodes = rs.total_episodes ∧
      ret.continue_training = false
  | EpRes.finished rs1 =>
      TraceExt rolloutEvent rs.st rs1.st ∧ SameCounters rs.st rs1.st ∧
      rs1.st.episode_num + rs.total_episodes = rs.st.episode_num + rs1.total_episodes
/-- The per-step hook never requests cancellation (`on_step` never returns
exactly `False`, or `update_locals` raises first). -/
def CancelFree (cb : Callback) : Prop :=
  ∀ k, ¬(cb.update_locals_raises k = false ∧ cb.on_step k = HookRet.retFalse)
/-- The algorithm-state fields that the whole collection layer leaves
untouched and that `learn` manages itself. -/
def LearnSafe (s s1 : AlgoState) : Prop :=
  s1.n_train_steps_total = s.n_train_steps_total ∧
  s1.initial_experience = s.initial_experience ∧
  s1.task_idx = s.task_idx ∧
  s1.rng_count = s.rng_count
/-- The rollout of `cDone` with `n_episodes = 1, n_steps = 1`: the
environment sets `done` on the very step that reaches the `n_steps`
truncation bound, so the break branch and the `if done:` branch both run
their episode-end bookkeeping. -/
def coincide_run : Option (RolloutReturn × AlgoState) :=
  collect_rollouts cDone 1 1 false [] 10 st0
/-- `total_episodes` of the coincident-end rollout. -/
def coincide_total_episodes : Nat :=
  match coincide_run with
  | some (ret, _) => ret.total_episodes
  | none => 0
/-- Final `_episode_num` of the coincident-end rollout. -/
def coincide_episode_num : Nat :=
  match coincide_run with
  | some (_, s1) => s1.episode_num
  | none => 0
/-- `total_steps` of the coincident-end rollout. -/
def coincide_total_steps : Nat :=
  match coincide_run with
  | some (ret, _) => ret.total_steps
  | none => 0
/-- Concrete `collect_data` run used by the C1 witness. -/
def w1st : AlgoState :=
  match collect_data cT 3 1 (NumInf.fin 1) true 30 st0 with
  | CDRes.done s => s
  | _ => st0
/-- Concrete `learn` run used by the C2 witness. -/
def w2st : AlgoState :=
  match learn cT 60 st0 with
  | CDRes.done s => s
  | _ => st0
/-- Concrete cancelled rollout used by the C4 witness. -/
def w4run : Option (RolloutReturn × AlgoState) :=
  collect_rollouts cCancel 1 2 false [BufRef.replayRef 0] 20 st0
/-- `RolloutReturn` of the cancelled rollout. -/
def w4ret : RolloutReturn :=
  match w4run with
  | some (r, _) => r
  | none => { mean_reward := 0, total_steps := 0, total_episodes := 0,
              continue_training := true }
/-- Final state of the cancelled rollout. -/
def w4st : AlgoState :=
  match w4run with
  | some (_, s) => s
  | none => st0
/-- Concrete uncancelled rollout used by the C4 witness. -/
def w4run2 : Option (RolloutReturn × AlgoState) :=
  collect_rollouts cT 1 2 false [] 20 st0
/-- `RolloutReturn` of the uncancelled rollout. -/
def w4ret2 : RolloutReturn :=
  match w4run2 with
  | some (r, _) => r
  | none => { mean_reward := 0, total_steps := 0, total_episodes := 0,
              continue_training := false }
/-- Final state of the uncancelled rollout. -/
def w4st2 : AlgoState :=
  match w4run2 with
  | some (_, s) => s
  | none => st0
/-- Concrete `collect_data` run used by the C5 witness. -/
def w5st : AlgoState :=
  match collect_data cT 3 1 (NumInf.fin 1) true 30 st0 with
  | CDRes.done s => s
  | _ => st0
/-- Concrete `obtain_samples` run used by the C5 witness. -/
def w5ost : AlgoState :=
  match obtain_samples cT (NumInf.fin 3) NumInf.inf false 1 [] 20 st0 with
  | OSRes.ok _ s => s
  | _ => st0
/-- Concrete rollout with raising hooks used by the C8 witness. -/
def w8run : Option (RolloutReturn × AlgoState) :=
  collect_rollouts cRaise 1 2 false [] 20 st0
/-- `RolloutReturn` of the raising-hooks rollout. -/
def w8ret : RolloutReturn :=
  match w8run with
  | some (r, _) => r
  | none => { mean_reward := 0, total_steps := 0, total_episodes := 0,
              continue_training := false }
/-- Final state of the raising-hooks rollout. -/
def w8st : AlgoState :=
  match w8run with
  | some (_, s) => s
  | none => st0
/-- Rollout-local state used by the C9 witness. -/
def rsW9 : RState :=
  { o := 0, total_steps := 0, total_episodes := 0, episode_rewards := [],
    episode_lengths := [], st := st0 }
/-- Concrete rollout used by the C10 witness. -/
def w10run : Option (RolloutReturn × AlgoState) :=
  collect_rollouts cT 1 2 false [] 20 st0
/-- `RolloutReturn` of the C10 rollout. -/
def w10ret : RolloutReturn :=
  match w10run with
  | some (r, _) => r
  | none => { mean_reward := 0, total_steps := 0, total_episodes := 0,
              continue_training := false }
/-- Final state of the C10 rollout. -/
def w10st : AlgoState :=
  match w10run with
  | some (_, s) => s
  | none => st0
/-- Rollout-local state used by the C3 amended-theorem witness. -/
def rsW3 : RState :=
  { o := 0, total_steps := 0, total_episodes := 0, episode_rewards := [],
    episode_lengths := [], st := st0 }
/-- Inner-loop run of the coincident-end episode (C3 amended witness). -/
def innerW : Option EpExit := innerLoop cDone false [] 1 10 false 0 0 rsW3
/-- Episode reward of the coincident-end episode. -/
def innerW_epR : Int :=
  match innerW with
  | some (EpExit.viaBreak _ r _ _) => r
  | _ => 0
/-- Episode length of the coincident-end episode. -/
def innerW_epS : Nat :=
  match innerW with
  | some (EpExit.viaBreak _ _ s _) => s
  | _ => 0
/-- Loop state after the coincident-end episode's break. -/
def innerW_rs2 : RState :=
  match innerW with
  | some (EpExit.viaBreak _ _ _ x) => x
  | _ => rsW3

/-! ## Theorems -/
theorem traceExt_refl (P : Event → Bool) (s : AlgoState) : TraceExt P s s :=
  ⟨[], by simp, by simp⟩
theorem traceExt_trans {P : Event → Bool} {s s' s'' : AlgoState}
    (h1 : TraceExt P s s') (h2 : TraceExt P s' s'') : TraceExt P s s'' := by
  obtain ⟨d1, e1, f1⟩ := h1
  obtain ⟨d2, e2, f2⟩ := h2
  refine ⟨d1 ++ d2, by simp [e2, e1], ?_⟩
  intro e he
  rcases List.mem_append.mp he with h | h
  · exact f1 e h
  · exact f2 e h
theorem traceExt_push {P : Event → Bool} (s : AlgoState) {e : Event} (h : P e = true) :
    TraceExt P s (s.push e) :=
  ⟨[e], rfl, by simpa⟩
theorem traceExt_of_trace_eq {P : Event → Bool} {s s' : AlgoState}
    (h : s'.trace = s.trace) : TraceExt P s s' :=
  ⟨[], by simp [h], by simp⟩
theorem traceExt_mono {P Q : Event → Bool} (h : ∀ e, P e = true → Q e = true)
    {s s' : AlgoState} (ht : TraceExt P s s') : TraceExt Q s s' := by
  obtain ⟨d, hd, hall⟩ := ht
  exact ⟨d, hd, fun e he => h e (hall e he)⟩
theorem sameCounters_refl (s : AlgoState) : SameCounters s s :=
  ⟨rfl, rfl, rfl, rfl, rfl⟩
theorem sameCounters_trans {s s' s'' : AlgoState} (h1 : SameCounters s s')
    (h2 : SameCounters s' s'') : SameCounters s s'' := by
  obtain ⟨a1, b1, c1, d1, e1⟩ := h1
  obtain ⟨a2, b2, c2, d2, e2⟩ := h2
  exact ⟨a2.trans a1, b2.trans b1, c2.trans c1, d2.trans d1, e2.trans e1⟩
theorem sameCounters_push (s : AlgoState) (e : Event) : SameCounters s (s.push e) :=
  ⟨rfl, rfl, rfl, rfl, rfl⟩
theorem writeBuf_trace (s : AlgoState) (r : BufRef) (t : Transition) :
    (writeBuf s r t).trace = s.trace ++ [Event.bufAdd r] := by
  cases r <;> rfl
theorem writeBuf_traceExt (s : AlgoState) (r : BufRef) (t : Transition) :
    TraceExt rolloutEvent s (writeBuf s r t) :=
  ⟨[Event.bufAdd r], writeBuf_trace s r t, by simp [rolloutEvent]⟩
theorem writeBuf_sameCounters (s : AlgoState) (r : BufRef) (t : Transition) :
    SameCounters s (writeBuf s r t) := by
  cases r <;> exact ⟨rfl, rfl, rfl, rfl, rfl⟩
theorem writeBuf_episode_num (s : AlgoState) (r : BufRef) (t : Transition) :
    (writeBuf s r t).episode_num = s.episode_num := by
  cases r <;> rfl
theorem writeBuf_num_timesteps (s : AlgoState) (r : BufRef) (t : Transition) :
    (writeBuf s r t).num_timesteps = s.num_timesteps := by
  cases r <;> rfl
theorem storeTransition_cons (r : BufRef) (rest : List BufRef) (t : Transition)
    (s : AlgoState) :
    storeTransition (r :: rest) t s = storeTransition rest t (writeBuf s r t) := rfl
theorem storeTransition_post (bufs : List BufRef) (t : Transition) : ∀ s : AlgoState,
    TraceExt rolloutEvent s (storeTransition bufs t s) ∧
    SameCounters s (storeTransition bufs t s) ∧
    (storeTransition bufs t s).episode_num = s.episode_num ∧
    (storeTransition bufs t s).num_timesteps = s.num_timesteps := by
  induction bufs with
  | nil =>
      intro s
      exact ⟨traceExt_refl _ _, sameCounters_refl _, rfl, rfl⟩
  | cons r rest ih =>
      intro s
      rw [storeTransition_cons]
      obtain ⟨h1, h2, h3, h4⟩ := ih (writeBuf s r t)
      refine ⟨traceExt_trans (writeBuf_traceExt s r t) h1,
        sameCounters_trans (writeBuf_sameCounters s r t) h2, ?_, ?_⟩
      · rw [h3, writeBuf_episode_num]
      · rw [h4, writeBuf_num_timesteps]
theorem stepEffects_post (c : Ctx) (accum : Bool) (ts : Nat) (o a : Int) (s : AlgoState) :
    TraceExt rolloutEvent s (stepEffects c accum ts o a s) ∧
    SameCounters s (stepEffects c accum ts o a s) ∧
    (stepEffects c accum ts o a s).episode_num = s.episode_num ∧
    (stepEffects c accum ts o a s).num_timesteps = s.num_timesteps + 1 ∧
    (stepEffects c accum ts o a s).RBList_replay = s.RBList_replay ∧
    (stepEffects c accum ts o a s).RBList_encoder = s.RBList_encoder ∧
    (stepEffects c accum ts o a s).RBList_eval = s.RBList_eval := by
  unfold stepEffects
  split <;> cases accum <;>
    simp only [Bool.false_eq_true, if_false, if_true, ite_true, ite_false] <;>
    refine ⟨?_, ⟨rfl, rfl, rfl, rfl, rfl⟩, rfl, rfl, rfl, rfl, rfl⟩
  · exact ⟨[Event.resetNoise, Event.envStep o a], by simp [AlgoState.push],
      by simp [rolloutEvent]⟩
  · exact ⟨[Event.resetNoise, Event.envStep o a, Event.updateContext],
      by simp [AlgoState.push], by simp [rolloutEvent]⟩
  · exact ⟨[Event.envStep o a], by simp [AlgoState.push], by simp [rolloutEvent]⟩
  · exact ⟨[Event.envStep o a, Event.updateContext], by simp [AlgoState.push],
      by simp [rolloutEvent]⟩
theorem innerPost_lift {rs rs1 : RState} (h : InnerInv rs rs1) :
    ∀ ex, InnerPost rs1 ex → InnerPost rs ex := by
  obtain ⟨ht, hc, hn, he, hr, hl⟩ := h
  intro ex hp
  cases ex with
  | cancelled ret st1 =>
      obtain ⟨pt, pc, pn, pm, pe, pk⟩ := hp
      exact ⟨traceExt_trans ht pt, sameCounters_trans hc pc, by rw [pn, hn],
        pm, by rw [pe, he], pk⟩
  | viaCond r s rs2 =>
      obtain ⟨pt, pc, pn, pe, pr, pl⟩ := hp
      exact ⟨traceExt_trans ht pt, sameCounters_trans hc pc, by rw [pn, hn],
        by rw [pe, he], by rw [pr, hr], by rw [pl, hl]⟩
  | viaBreak d r s rs2 =>
      obtain ⟨pt, pc, pn, pe, rw1, sw1, hw1, hw2⟩ := hp
      exact ⟨traceExt_trans ht pt, sameCounters_trans hc pc, by rw [pn, hn],
        by rw [pe, he], ⟨rw1, sw1, by rw [hw1, hr], by rw [hw2, hl]⟩⟩
theorem stepStore_post (c : Ctx) (ac : Bool) (bufs : List BufRef) (t : Transition)
    (ts : Nat) (o a : Int) (s : AlgoState) :
    TraceExt rolloutEvent s (storeTransition bufs t (stepEffects c ac ts o a s)) ∧
    SameCounters s (storeTransition bufs t (stepEffects c ac ts o a s)) ∧
    (storeTransition bufs t (stepEffects c ac ts o a s)).episode_num = s.episode_num := by
  obtain ⟨h1, h2, h3, _, _, _, _⟩ := stepEffects_post c ac ts o a s
  obtain ⟨g1, g2, g3, _⟩ := storeTransition_post bufs t (stepEffects c ac ts o a s)
  exact ⟨traceExt_trans h1 g1, sameCounters_trans h2 g2, by rw [g3, h3]⟩
theorem innerLoop_post (c : Ctx) (ac : Bool) (bufs : List BufRef) (ns : Int) :
    ∀ fuel dn epR epS rs ex,
      innerLoop c ac bufs ns fuel dn epR epS rs = some ex → InnerPost rs ex := by
  intro fuel
  induction fuel with
  | zero =>
      intro dn epR epS rs ex h
      simp [innerLoop] at h
  | succ fuel ih =>
      intro dn epR epS rs ex h
      rw [innerLoop] at h
      by_cases hdn : dn
      · rw [if_pos hdn] at h
        cases h
        exact ⟨traceExt_refl _ _, sameCounters_refl _, rfl, rfl, rfl, rfl⟩
      · rw [if_neg hdn] at h
        simp only [] at h
        by_cases hcan : (c.cb.update_locals_raises
              (stepEffects c ac rs.total_steps rs.o (c.policy rs.o) rs.st).num_timesteps
                = false ∧
            c.cb.on_step
              (stepEffects c ac rs.total_steps rs.o (c.policy rs.o) rs.st).num_timesteps
                = HookRet.retFalse)
        · rw [if_pos hcan] at h
          cases h
          obtain ⟨h1, h2, h3, _, _, _, _⟩ :=
            stepEffects_post c ac rs.total_steps rs.o (c.policy rs.o) rs.st
          exact ⟨h1, h2, h3, rfl, rfl, rfl⟩
        · rw [if_neg hcan] at h
          by_cases hbr : (0 < ns ∧ ns ≤ ((rs.total_steps + 1 : Nat) : Int))
          · rw [if_pos hbr] at h
            cases h
            obtain ⟨h1, h2, h3⟩ := stepStore_post c ac bufs
              { obs := rs.o, next_obs := (c.env.step rs.o (c.policy rs.o)).1,
                action := c.policy rs.o,
                reward := (c.env.step rs.o (c.policy rs.o)).2.1,
                dn := (c.env.step rs.o (c.policy rs.o)).2.2 }
              rs.total_steps rs.o (c.policy rs.o) rs.st
            refine ⟨h1, h2, ?_, rfl, ?_⟩
            · show (storeTransition bufs _ _).episode_num + 1 = rs.st.episode_num + 1
              rw [h3]
            · exact ⟨_, _, rfl, rfl⟩
          · rw [if_neg hbr] at h
            have hpost := ih _ _ _ _ _ h
            refine innerPost_lift ?_ _ hpost
            obtain ⟨h1, h2, h3⟩ := stepStore_post c ac bufs
              { obs := rs.o, next_obs := (c.env.step rs.o (c.policy rs.o)).1,
                action := c.policy rs.o,
                reward := (c.env.step rs.o (c.policy rs.o)).2.1,
                dn := (c.env.step rs.o (c.policy rs.o)).2.2 }
              rs.total_steps rs.o (c.policy rs.o) rs.st
            exact ⟨h1, h2, h3, rfl, rfl, rfl⟩
theorem runEpisode_post (c : Ctx) (ac : Bool) (bufs : List BufRef) (ns : Int)
    (fuel : Nat) (rs : RState) :
    ∀ r, runEpisode c ac bufs ns fuel rs = some r → EpPost rs r := by
  intro r h
  unfold runEpisode at h
  cases hinner : innerLoop c ac bufs ns fuel false 0 0 rs with
  | none => rw [hinner] at h; cases h
  | some ex =>
    rw [hinner] at h
    have hp := innerLoop_post c ac bufs ns fuel false 0 0 rs ex hinner
    cases ex with
    | cancelled ret st1 =>
        cases h
        exact hp
    | viaCond epR epS rs2 =>
        cases h
        obtain ⟨ht, hc, hn, he, _, _⟩ := hp
        refine ⟨traceExt_trans ht (traceExt_of_trace_eq rfl),
          sameCounters_trans hc ⟨rfl, rfl, rfl, rfl, rfl⟩, ?_⟩
        show rs2.st.episode_num + 1 + rs.total_episodes
          = rs.st.episode_num + (rs2.total_episodes + 1)
        rw [hn, he]
        omega
    | viaBreak d epR epS rs2 =>
        obtain ⟨ht, hc, hn, he, _⟩ := hp
        cases d with
        | false =>
            have h2 : some (EpRes.finished rs2) = some r := h
            cases h2
            exact ⟨ht, hc, by rw [hn, he]; omega⟩
        | true =>
            have h2 : some (EpRes.finished (recordEpisode epR epS rs2)) = some r := h
            cases h2
            refine ⟨traceExt_trans ht (traceExt_of_trace_eq rfl),
              sameCounters_trans hc ⟨rfl, rfl, rfl, rfl, rfl⟩, ?_⟩
            show rs2.st.episode_num + 1 + rs.total_episodes
              = rs.st.episode_num + (rs2.total_episodes + 1)
            rw [hn, he]
            omega
theorem outerLoop_post (c : Ctx) (ac : Bool) (bufs : List BufRef) (ns : Int)
    (ne : Nat) : ∀ fuel rs ret st1,
    outerLoop c ac bufs ns ne fuel rs = some (ret, st1) →
      TraceExt rolloutEvent rs.st st1 ∧ SameCounters rs.st st1 ∧
      st1.episode_num + rs.total_episodes = rs.st.episode_num + ret.total_episodes ∧
      (ret.continue_training = false → ret.mean_reward = 0) := by
  intro fuel
  induction fuel with
  | zero =>
      intro rs ret st1 h
      simp [outerLoop] at h
  | succ fuel ih =>
      intro rs ret st1 h
      rw [outerLoop] at h
      by_cases hcond : ((rs.total_steps : Int) < ns ∧ rs.total_episodes < ne)
      · rw [if_pos hcond] at h
        cases hep : runEpisode c ac bufs ns (fuel + 1) rs with
        | none => rw [hep] at h; cases h
        | some r =>
          rw [hep] at h
          have hp := runEpisode_post c ac bufs ns (fuel + 1) rs r hep
          cases r with
          | cancelled ret2 st2 =>
              cases h
              obtain ⟨ht, hc, hn, hm, he, hk⟩ := hp
              exact ⟨ht, hc, by rw [hn, he], fun _ => hm⟩
          | finished rs1 =>
              obtain ⟨ht, hc, hn⟩ := hp
              obtain ⟨gt, gc, gn, gm⟩ := ih rs1 ret st1 h
              exact ⟨traceExt_trans ht gt, sameCounters_trans hc gc, by omega, gm⟩
      · rw [if_neg hcond] at h
        cases h
        exact ⟨traceExt_refl _ _, sameCounters_refl _, rfl,
          fun hfalse => by simp at hfalse⟩
theorem collect_rollouts_post (c : Ctx) (ne : Nat) (ns : Int) (ac : Bool)
    (bufs : List BufRef) (fuel : Nat) (st : AlgoState) (ret : RolloutReturn)
    (st1 : AlgoState)
    (h : collect_rollouts c ne ns ac bufs fuel st = some (ret, st1)) :
    (∃ d1 d2, st1.trace = st.trace ++ d1 ++ (Event.envReset :: d2) ∧
      (∀ e ∈ d1, e = Event.resetNoise) ∧ (∀ e ∈ d2, rolloutEvent e = true)) ∧
    SameCounters st st1 ∧
    st1.episode_num = st.episode_num + ret.total_episodes ∧
    (ret.continue_training = false → ret.mean_reward = 0) := by
  unfold collect_rollouts at h
  by_cases hsde : c.cfg.use_sde = true
  · rw [if_pos hsde] at h
    obtain ⟨⟨d, hd, hall⟩, hc, hn, hm⟩ := outerLoop_post c ac bufs ns ne fuel _ ret st1 h
    refine ⟨⟨[Event.resetNoise], d, ?_, by simp, hall⟩, ?_, ?_, hm⟩
    · simpa [AlgoState.push] using hd
    · exact sameCounters_trans (sameCounters_trans (sameCounters_push _ _)
        (sameCounters_push _ _)) hc
    · simpa using hn
  · rw [if_neg hsde] at h
    obtain ⟨⟨d, hd, hall⟩, hc, hn, hm⟩ := outerLoop_post c ac bufs ns ne fuel _ ret st1 h
    refine ⟨⟨[], d, ?_, by simp, hall⟩, ?_, ?_, hm⟩
    · simpa [AlgoState.push] using hd
    · exact sameCounters_trans (sameCounters_push _ _) hc
    · simpa using hn
theorem rolloutEvent_full {e : Event} (h : rolloutEvent e = true) :
    rolloutFullEvent e = true := by
  cases e <;> simp_all [rolloutEvent, rolloutFullEvent]
theorem collect_rollouts_traceExt {c : Ctx} {ne : Nat} {ns : Int} {ac : Bool}
    {bufs : List BufRef} {fuel : Nat} {st : AlgoState} {ret : RolloutReturn}
    {st1 : AlgoState}
    (h : collect_rollouts c ne ns ac bufs fuel st = some (ret, st1)) :
    TraceExt rolloutFullEvent st st1 := by
  obtain ⟨⟨d1, d2, hd, h1, h2⟩, _, _, _⟩ := collect_rollouts_post c ne ns ac bufs fuel st ret st1 h
  refine ⟨d1 ++ Event.envReset :: d2, by simpa using hd, ?_⟩
  intro e he
  rcases List.mem_append.mp he with hm | hm
  · rw [h1 e hm]; rfl
  · rcases List.mem_cons.mp hm with hm | hm
    · rw [hm]; rfl
    · exact rolloutEvent_full (h2 e hm)
theorem innerLoop_cancelFree (c : Ctx) (ac : Bool) (bufs : List BufRef) (ns : Int)
    (hfree : CancelFree c.cb) : ∀ fuel dn epR epS rs ret st1,
    innerLoop c ac bufs ns fuel dn epR epS rs ≠ some (EpExit.cancelled ret st1) := by
  intro fuel
  induction fuel with
  | zero =>
      intro dn epR epS rs ret st1 h
      simp [innerLoop] at h
  | succ fuel ih =>
      intro dn epR epS rs ret st1 h
      rw [innerLoop] at h
      by_cases hdn : dn
      · rw [if_pos hdn] at h; cases h
      · rw [if_neg hdn] at h
        simp only [] at h
        rw [if_neg (hfree _)] at h
        by_cases hbr : (0 < ns ∧ ns ≤ ((rs.total_steps + 1 : Nat) : Int))
        · rw [if_pos hbr] at h; cases h
        · rw [if_neg hbr] at h
          exact ih _ _ _ _ _ _ h
theorem outerLoop_continue (c : Ctx) (ac : Bool) (bufs : List BufRef) (ns : Int)
    (ne : Nat) (hfree : CancelFree c.cb) : ∀ fuel rs ret st1,
    outerLoop c ac bufs ns ne fuel rs = some (ret, st1) →
    ret.continue_training = true := by
  intro fuel
  induction fuel with
  | zero =>
      intro rs ret st1 h
      simp [outerLoop] at h
  | succ fuel ih =>
      intro rs ret st1 h
      rw [outerLoop] at h
      by_cases hcond : ((rs.total_steps : Int) < ns ∧ rs.total_episodes < ne)
      · rw [if_pos hcond] at h
        cases hep : runEpisode c ac bufs ns (fuel + 1) rs with
        | none => rw [hep] at h; cases h
        | some r =>
          rw [hep] at h
          cases r with
          | cancelled ret2 st2 =>
              exfalso
              unfold runEpisode at hep
              cases hinner : innerLoop c ac bufs ns (fuel + 1) false 0 0 rs with
              | none => rw [hinner] at hep; cases hep
              | some ex =>
                rw [hinner] at hep
                cases ex with
                | cancelled ret3 st3 =>
                    exact innerLoop_cancelFree c ac bufs ns hfree _ _ _ _ _ _ _ hinner
                | viaCond epR epS rs2 => cases hep
                | viaBreak d epR epS rs2 =>
                    cases d with
                    | false =>
                        have h3 : some (EpRes.finished rs2)
                            = some (EpRes.cancelled ret2 st2) := hep
                        simp at h3
                    | true =>
                        have h3 : some (EpRes.finished (recordEpisode epR epS rs2))
                            = some (EpRes.cancelled ret2 st2) := hep
                        simp at h3
          | finished rs1 => exact ih rs1 ret st1 h
      · rw [if_neg hcond] at h
        cases h
        rfl
theorem collect_rollouts_continue (c : Ctx) (ne : Nat) (ns : Int) (ac : Bool)
    (bufs : List BufRef) (fuel : Nat) (st : AlgoState) (ret : RolloutReturn)
    (st1 : AlgoState) (hfree : CancelFree c.cb)
    (h : collect_rollouts c ne ns ac bufs fuel st = some (ret, st1)) :
    ret.continue_training = true := by
  unfold collect_rollouts at h
  exact outerLoop_continue c ac bufs ns ne hfree fuel _ ret st1 h
theorem innerLoop_cb_congr (c : Ctx) (cb2 : Callback) (ac : Bool) (bufs : List BufRef)
    (ns : Int) (h1 : CancelFree c.cb) (h2 : CancelFree cb2) :
    ∀ fuel dn epR epS rs,
    innerLoop c ac bufs ns fuel dn epR epS rs
      = innerLoop { c with cb := cb2 } ac bufs ns fuel dn epR epS rs := by
  intro fuel
  induction fuel with
  | zero => intro dn epR epS rs; rfl
  | succ fuel ih =>
      intro dn epR epS rs
      rw [innerLoop, innerLoop]
      by_cases hdn : dn
      · rw [if_pos hdn, if_pos hdn]
      · rw [if_neg hdn, if_neg hdn]
        simp only []
        rw [if_neg (h1 _), if_neg (h2 _)]
        by_cases hbr : (0 < ns ∧ ns ≤ ((rs.total_steps + 1 : Nat) : Int))
        · rw [if_pos hbr, if_pos hbr]
          exact rfl
        · rw [if_neg hbr, if_neg hbr]
          exact ih _ _ _ _
theorem outerLoop_cb_congr (c : Ctx) (cb2 : Callback) (ac : Bool) (bufs : List BufRef)
    (ns : Int) (ne : Nat) (h1 : CancelFree c.cb) (h2 : CancelFree cb2) :
    ∀ fuel rs, outerLoop c ac bufs ns ne fuel rs
      = outerLoop { c with cb := cb2 } ac bufs ns ne fuel rs := by
  intro fuel
  induction fuel with
  | zero => intro rs; rfl
  | succ fuel ih =>
      intro rs
      rw [outerLoop, outerLoop]
      by_cases hcond : ((rs.total_steps : Int) < ns ∧ rs.total_episodes < ne)
      · rw [if_pos hcond, if_pos hcond]
        unfold runEpisode
        rw [← innerLoop_cb_congr c cb2 ac bufs ns h1 h2]
        cases innerLoop c ac bufs ns (fuel + 1) false 0 0 rs with
        | none => rfl
        | some ex =>
          cases ex with
          | cancelled ret st1 => rfl
          | viaCond epR epS rs2 => simp only []; rw [ih]
          | viaBreak d epR epS rs2 => simp only []; rw [ih]
      · rw [if_neg hcond, if_neg hcond]
theorem collect_rollouts_cb_congr (c : Ctx) (cb2 : Callback) (ne : Nat) (ns : Int)
    (ac : Bool) (bufs : List BufRef) (fuel : Nat) (st : AlgoState)
    (h1 : CancelFree c.cb) (h2 : CancelFree cb2) :
    collect_rollouts c ne ns ac bufs fuel st
      = collect_rollouts { c with cb := cb2 } ne ns ac bufs fuel st := by
  unfold collect_rollouts
  exact outerLoop_cb_congr c cb2 ac bufs ns ne h1 h2 fuel _
theorem osEvent_of_full {e : Event} (h : rolloutFullEvent e = true) : osEvent e = true := by
  cases e <;> simp_all [rolloutFullEvent, rolloutEvent, osEvent]
theorem collectEvent_of_os {e : Event} (h : osEvent e = true) : collectEvent e = true := by
  cases e <;> simp_all [osEvent, rolloutFullEvent, rolloutEvent, collectEvent]
theorem collect_rollouts_osExt {c : Ctx} {ne : Nat} {ns : Int} {ac : Bool}
    {bufs : List BufRef} {fuel : Nat} {st : AlgoState} {ret : RolloutReturn}
    {st1 : AlgoState}
    (h : collect_rollouts c ne ns ac bufs fuel st = some (ret, st1)) :
    TraceExt osEvent st st1 :=
  traceExt_mono (fun _ he => osEvent_of_full he) (collect_rollouts_traceExt h)
theorem collect_rollouts_sameCounters {c : Ctx} {ne : Nat} {ns : Int} {ac : Bool}
    {bufs : List BufRef} {fuel : Nat} {st : AlgoState} {ret : RolloutReturn}
    {st1 : AlgoState}
    (h : collect_rollouts c ne ns ac bufs fuel st = some (ret, st1)) :
    SameCounters st st1 :=
  (collect_rollouts_post c ne ns ac bufs fuel st ret st1 h).2.1
theorem osLoop_count (c : Ctx) (ms mt : NumInf) (ac : Bool) (resample : Nat)
    (bufs : List BufRef) : ∀ fuel s j st n st1,
    osLoop c ms mt ac resample bufs fuel s j st = OSRes.ok n st1 →
      (∃ k, n = s + k * c.cfg.max_path_length) ∧
      TraceExt osEvent st st1 ∧ SameCounters st st1 := by
  intro fuel
  induction fuel with
  | zero =>
      intro s j st n st1 h
      cases h
  | succ fuel ih =>
      intro s j st n st1 h
      rw [osLoop] at h
      by_cases hb : (NumInf.ltN s ms && NumInf.ltN j mt) = true
      · rw [if_pos hb] at h
        cases hcr : collect_rollouts c 1 (c.cfg.max_path_length : Int) ac bufs
            (fuel + 1) st with
        | none => rw [hcr] at h; cases h
        | some p =>
          cases p with
          | mk ret2 st2 =>
            rw [hcr] at h
            have h2 : osLoop c ms mt ac resample bufs fuel
                (s + c.cfg.max_path_length) (j + 1)
                (if resample ≠ 0 ∧ (j + 1) % resample = 0 then
                  AlgoState.push st2 Event.sampleZ else st2) = OSRes.ok n st1 := h
            obtain ⟨⟨k, hk⟩, ht, hc⟩ := ih _ _ _ _ _ h2
            have hmid : TraceExt osEvent st2
                (if resample ≠ 0 ∧ (j + 1) % resample = 0 then
                  AlgoState.push st2 Event.sampleZ else st2) ∧
                SameCounters st2
                (if resample ≠ 0 ∧ (j + 1) % resample = 0 then
                  AlgoState.push st2 Event.sampleZ else st2) := by
              split
              · exact ⟨traceExt_push _ rfl, sameCounters_push _ _⟩
              · exact ⟨traceExt_refl _ _, sameCounters_refl _⟩
            refine ⟨⟨k + 1, by rw [hk]; ring⟩, ?_, ?_⟩
            · exact traceExt_trans (collect_rollouts_osExt hcr)
                (traceExt_trans hmid.1 ht)
            · exact sameCounters_trans (collect_rollouts_sameCounters hcr)
                (sameCounters_trans hmid.2 hc)
      · rw [if_neg hb] at h
        cases h
        exact ⟨⟨0, by omega⟩, traceExt_refl _ _, sameCounters_refl _⟩
theorem osLoop_cadence (c : Ctx) (ms mt : NumInf) (ac : Bool) (resample : Nat)
    (bufs : List BufRef) (hres : 0 < resample) : ∀ fuel s j st n st1,
    osLoop c ms mt ac resample bufs fuel s j st = OSRes.ok n st1 →
      ∃ bs : List (List Event),
        st1.trace = st.trace ++ cadenceBlocks resample j bs ∧
        n = s + bs.length * c.cfg.max_path_length ∧
        ∀ b ∈ bs, ∀ e ∈ b, rolloutFullEvent e = true := by
  intro fuel
  induction fuel with
  | zero =>
      intro s j st n st1 h
      cases h
  | succ fuel ih =>
      intro s j st n st1 h
      rw [osLoop] at h
      by_cases hb : (NumInf.ltN s ms && NumInf.ltN j mt) = true
      · rw [if_pos hb] at h
        cases hcr : collect_rollouts c 1 (c.cfg.max_path_length : Int) ac bufs
            (fuel + 1) st with
        | none => rw [hcr] at h; cases h
        | some p =>
          cases p with
          | mk ret2 st2 =>
            rw [hcr] at h
            have h2 : osLoop c ms mt ac resample bufs fuel
                (s + c.cfg.max_path_length) (j + 1)
                (if resample ≠ 0 ∧ (j + 1) % resample = 0 then
                  AlgoState.push st2 Event.sampleZ else st2) = OSRes.ok n st1 := h
            obtain ⟨bs, hbs, hn, hall⟩ := ih _ _ _ _ _ h2
            obtain ⟨d, hd, hde⟩ := collect_rollouts_traceExt hcr
            refine ⟨d :: bs, ?_, by rw [hn, List.length_cons]; ring, ?_⟩
            · by_cases hmod : (j + 1) % resample = 0
              · rw [if_pos ⟨by omega, hmod⟩] at hbs
                rw [hbs]
                simp [AlgoState.push, hd, cadenceBlocks, if_pos hmod]
              · rw [if_neg (by intro hcon; exact hmod hcon.2)] at hbs
                rw [hbs, hd]
                simp [cadenceBlocks, if_neg hmod]
            · intro b hb2
              rcases List.mem_cons.mp hb2 with hb2 | hb2
              · intro e he; rw [hb2] at he; exact hde e he
              · exact hall b hb2
      · rw [if_neg hb] at h
        cases h
        exact ⟨[], by simp [cadenceBlocks], by simp, by simp⟩
theorem osLoop_no_assert (c : Ctx) (ms mt : NumInf) (ac : Bool) (resample : Nat)
    (bufs : List BufRef) : ∀ fuel s j st s1,
    osLoop c ms mt ac resample bufs fuel s j st ≠ OSRes.assertFail s1 := by
  intro fuel
  induction fuel with
  | zero => intro s j st s1 h; cases h
  | succ fuel ih =>
      intro s j st s1 h
      rw [osLoop] at h
      by_cases hb : (NumInf.ltN s ms && NumInf.ltN j mt) = true
      · rw [if_pos hb] at h
        cases hcr : collect_rollouts c 1 (c.cfg.max_path_length : Int) ac bufs
            (fuel + 1) st with
        | none => rw [hcr] at h; cases h
        | some p =>
          cases p with
          | mk ret2 st2 =>
            rw [hcr] at h
            exact ih _ _ _ _ h
      · rw [if_neg hb] at h
        cases h
theorem obtain_samples_assert (c : Ctx) (ac : Bool) (resample : Nat)
    (bufs : List BufRef) (fuel : Nat) (st : AlgoState) :
    obtain_samples c NumInf.inf NumInf.inf ac resample bufs fuel st
      = OSRes.assertFail st := by
  unfold obtain_samples
  rw [if_pos ⟨rfl, rfl⟩]
theorem obtain_samples_no_assert (c : Ctx) {ms mt : NumInf} (ac : Bool)
    (resample : Nat) (bufs : List BufRef) (fuel : Nat) (st : AlgoState)
    (hfin : ms ≠ NumInf.inf ∨ mt ≠ NumInf.inf) :
    ∀ s1, obtain_samples c ms mt ac resample bufs fuel st ≠ OSRes.assertFail s1 := by
  intro s1 h
  unfold obtain_samples at h
  rw [if_neg (by rcases hfin with hf | hf <;> intro hcon <;> [exact hf hcon.1; exact hf hcon.2])] at h
  exact osLoop_no_assert c ms mt ac resample bufs fuel 0 0 st s1 h
theorem obtain_samples_count (c : Ctx) {ms mt : NumInf} {ac : Bool} {resample : Nat}
    {bufs : List BufRef} {fuel : Nat} {st : AlgoState} {n : Nat} {st1 : AlgoState}
    (h : obtain_samples c ms mt ac resample bufs fuel st = OSRes.ok n st1) :
    (∃ k, n = k * c.cfg.max_path_length) ∧
    TraceExt osEvent st st1 ∧ SameCounters st st1 := by
  unfold obtain_samples at h
  by_cases hinf : (ms = NumInf.inf ∧ mt = NumInf.inf)
  · rw [if_pos hinf] at h; cases h
  · rw [if_neg hinf] at h
    obtain ⟨⟨k, hk⟩, ht, hc⟩ := osLoop_count c ms mt ac resample bufs fuel 0 0 st n st1 h
    exact ⟨⟨k, by omega⟩, ht, hc⟩
theorem learnSafe_refl (s : AlgoState) : LearnSafe s s := ⟨rfl, rfl, rfl, rfl⟩
theorem learnSafe_trans {s s1 s2 : AlgoState} (h1 : LearnSafe s s1)
    (h2 : LearnSafe s1 s2) : LearnSafe s s2 := by
  obtain ⟨a1, b1, c1, d1⟩ := h1
  obtain ⟨a2, b2, c2, d2⟩ := h2
  exact ⟨a2.trans a1, b2.trans b1, c2.trans c1, d2.trans d1⟩
theorem learnSafe_of_sameCounters {s s1 : AlgoState} (h : SameCounters s s1) :
    LearnSafe s s1 :=
  ⟨h.2.1, h.2.2.1, h.2.2.2.1, h.2.2.2.2⟩
theorem learnSafe_push (s : AlgoState) (e : Event) : LearnSafe s (s.push e) :=
  ⟨rfl, rfl, rfl, rfl⟩
theorem cdLoop_post (c : Ctx) (N r : Nat) (upr : NumInf) (add : Bool) :
    ∀ fuel acc st st1, cdLoop c N r upr add fuel acc st = CDRes.done st1 →
      LearnSafe st st1 ∧ TraceExt collectEvent st st1 ∧
      (acc % c.cfg.max_path_length = 0 →
        ∃ m, m % c.cfg.max_path_length = 0 ∧ N ≤ m ∧
          st1.n_env_steps_total = st.n_env_steps_total + m) := by
  intro fuel
  induction fuel with
  | zero =>
      intro acc st st1 h
      cases h
  | succ fuel ih =>
      intro acc st st1 h
      rw [cdLoop] at h
      by_cases hlt : acc < N
      · rw [if_pos hlt] at h
        cases hos : obtain_samples c (NumInf.fin (N - acc)) upr false r
            (cdBufs add st.task_idx) (fuel + 1) st with
        | fuelOut => rw [hos] at h; cases h
        | assertFail s2 => rw [hos] at h; cases h
        | ok n st2 =>
          rw [hos] at h
          have h3 : cdLoop c N r upr add fuel (acc + n)
              (if upr ≠ NumInf.inf then
                actorInferPosterior st2 (sample_context st2 st2.task_idx)
              else st2) = CDRes.done st1 := h
          obtain ⟨⟨k, hk⟩, ht, hc⟩ := obtain_samples_count c hos
          have hmid : LearnSafe st2
                (if upr ≠ NumInf.inf then
                  actorInferPosterior st2 (sample_context st2 st2.task_idx)
                else st2) ∧
              TraceExt collectEvent st2
                (if upr ≠ NumInf.inf then
                  actorInferPosterior st2 (sample_context st2 st2.task_idx)
                else st2) ∧
              (if upr ≠ NumInf.inf then
                  actorInferPosterior st2 (sample_context st2 st2.task_idx)
                else st2).n_env_steps_total = st2.n_env_steps_total := by
            split
            · exact ⟨learnSafe_push _ _, traceExt_push _ rfl, rfl⟩
            · exact ⟨learnSafe_refl _, traceExt_refl _ _, rfl⟩
          obtain ⟨g1, g2, g3⟩ := ih _ _ _ h3
          refine ⟨learnSafe_trans (learnSafe_of_sameCounters hc)
              (learnSafe_trans hmid.1 g1),
            traceExt_trans (traceExt_mono (fun _ he => collectEvent_of_os he) ht)
              (traceExt_trans hmid.2.1 g2), ?_⟩
          intro hacc
          obtain ⟨m, hm1, hm2, hm3⟩ := g3 (by rw [hk, Nat.add_mul_mod_self_right]; exact hacc)
          refine ⟨m, hm1, hm2, ?_⟩
          rw [hm3, hmid.2.2, hc.1]
      · rw [if_neg hlt] at h
        cases h
        refine ⟨⟨rfl, rfl, rfl, rfl⟩, traceExt_of_trace_eq rfl, ?_⟩
        intro hacc
        exact ⟨acc, hacc, by omega, rfl⟩
theorem collect_data_post (c : Ctx) (N r : Nat) (upr : NumInf) (add : Bool)
    (fuel : Nat) (st st1 : AlgoState)
    (h : collect_data c N r upr add fuel st = CDRes.done st1) :
    LearnSafe st st1 ∧ TraceExt collectEvent st st1 ∧
    ∃ m, m % c.cfg.max_path_length = 0 ∧ N ≤ m ∧
      st1.n_env_steps_total = st.n_env_steps_total + m := by
  unfold collect_data at h
  obtain ⟨g1, g2, g3⟩ := cdLoop_post c N r upr add fuel 0 (st.push Event.clearZ) st1 h
  refine ⟨learnSafe_trans (learnSafe_push st Event.clearZ) g1,
    traceExt_trans (traceExt_push st (show collectEvent Event.clearZ = true from rfl)) g2,
    ?_⟩
  obtain ⟨m, hm1, hm2, hm3⟩ := g3 (by simp)
  exact ⟨m, hm1, hm2, hm3⟩
theorem obtain_samples_cadence (c : Ctx) {ms mt : NumInf} {ac : Bool} {resample : Nat}
    {bufs : List BufRef} {fuel : Nat} {st : AlgoState} {n : Nat} {st1 : AlgoState}
    (hres : 0 < resample)
    (h : obtain_samples c ms mt ac resample bufs fuel st = OSRes.ok n st1) :
    ∃ bs : List (List Event),
      st1.trace = st.trace ++ cadenceBlocks resample 0 bs ∧
      n = bs.length * c.cfg.max_path_length ∧
      ∀ b ∈ bs, ∀ e ∈ b, rolloutFullEvent e = true := by
  unfold obtain_samples at h
  by_cases hinf : (ms = NumInf.inf ∧ mt = NumInf.inf)
  · rw [if_pos hinf] at h; cases h
  · rw [if_neg hinf] at h
    obtain ⟨bs, h1, h2, h3⟩ :=
      osLoop_cadence c ms mt ac resample bufs hres fuel 0 0 st n st1 h
    exact ⟨bs, h1, by omega, h3⟩
theorem cdLoop_trace_fin (c : Ctx) (N r : Nat) (upr : NumInf) (add : Bool)
    (hfin : upr ≠ NumInf.inf) : ∀ fuel acc st st1,
    cdLoop c N r upr add fuel acc st = CDRes.done st1 →
      ∃ blocks : List (List Event),
        st1.trace = st.trace ++
          (blocks.map (fun b => b ++ [Event.inferPosterior])).flatten ∧
        ∀ b ∈ blocks, ∀ e ∈ b, osEvent e = true := by
  intro fuel
  induction fuel with
  | zero =>
      intro acc st st1 h
      cases h
  | succ fuel ih =>
      intro acc st st1 h
      rw [cdLoop] at h
      by_cases hlt : acc < N
      · rw [if_pos hlt] at h
        cases hos : obtain_samples c (NumInf.fin (N - acc)) upr false r
            (cdBufs add st.task_idx) (fuel + 1) st with
        | fuelOut => rw [hos] at h; cases h
        | assertFail s2 => rw [hos] at h; cases h
        | ok n st2 =>
          rw [hos] at h
          have h3 : cdLoop c N r upr add fuel (acc + n)
              (if upr ≠ NumInf.inf then
                actorInferPosterior st2 (sample_context st2 st2.task_idx)
              else st2) = CDRes.done st1 := h
          rw [if_pos hfin] at h3
          obtain ⟨blocks, hb1, hb2⟩ := ih _ _ _ h3
          obtain ⟨_, ⟨d, hd, hde⟩, _⟩ := obtain_samples_count c hos
          refine ⟨d :: blocks, ?_, ?_⟩
          · rw [hb1]
            show (AlgoState.push st2 Event.inferPosterior).trace ++ _ = _
            rw [AlgoState.push, hd]
            simp [List.append_assoc]
          · intro b hb
            rcases List.mem_cons.mp hb with hb | hb
            · intro e he; rw [hb] at he; exact hde e he
            · exact hb2 b hb
      · rw [if_neg hlt] at h
        cases h
        exact ⟨[], by simp, by simp⟩
theorem cdLoop_trace_inf (c : Ctx) (N r : Nat) (add : Bool) : ∀ fuel acc st st1,
    cdLoop c N r NumInf.inf add fuel acc st = CDRes.done st1 →
      ∃ d, st1.trace = st.trace ++ d ∧ ∀ e ∈ d, osEvent e = true := by
  intro fuel
  induction fuel with
  | zero =>
      intro acc st st1 h
      cases h
  | succ fuel ih =>
      intro acc st st1 h
      rw [cdLoop] at h
      by_cases hlt : acc < N
      · rw [if_pos hlt] at h
        cases hos : obtain_samples c (NumInf.fin (N - acc)) NumInf.inf false r
            (cdBufs add st.task_idx) (fuel + 1) st with
        | fuelOut => rw [hos] at h; cases h
        | assertFail s2 => rw [hos] at h; cases h
        | ok n st2 =>
          rw [hos] at h
          have h3 : cdLoop c N r NumInf.inf add fuel (acc + n)
              (if NumInf.inf ≠ NumInf.inf then
                actorInferPosterior st2 (sample_context st2 st2.task_idx)
              else st2) = CDRes.done st1 := h
          rw [if_neg (by simp)] at h3
          obtain ⟨d2, hd2, hd2e⟩ := ih _ _ _ h3
          obtain ⟨_, ⟨d, hd, hde⟩, _⟩ := obtain_samples_count c hos
          refine ⟨d ++ d2, by rw [hd2, hd]; simp [List.append_assoc], ?_⟩
          intro e he
          rcases List.mem_append.mp he with hm | hm
          · exact hde e hm
          · exact hd2e e hm
      · rw [if_neg hlt] at h
        cases h
        exact ⟨[], by simp, by simp⟩
theorem collect_data_trace_fin (c : Ctx) (N r : Nat) (upr : NumInf) (add : Bool)
    (fuel : Nat) (st st1 : AlgoState) (hfin : upr ≠ NumInf.inf)
    (h : collect_data c N r upr add fuel st = CDRes.done st1) :
    ∃ blocks : List (List Event),
      st1.trace = st.trace ++ (Event.clearZ ::
        (blocks.map (fun b => b ++ [Event.inferPosterior])).flatten) ∧
      ∀ b ∈ blocks, ∀ e ∈ b, osEvent e = true := by
  unfold collect_data at h
  obtain ⟨blocks, h1, h2⟩ := cdLoop_trace_fin c N r upr add hfin fuel 0
    (st.push Event.clearZ) st1 h
  refine ⟨blocks, ?_, h2⟩
  rw [h1, AlgoState.push]
  simp
theorem collect_data_trace_inf (c : Ctx) (N r : Nat) (add : Bool) (fuel : Nat)
    (st st1 : AlgoState)
    (h : collect_data c N r NumInf.inf add fuel st = CDRes.done st1) :
    ∃ d, st1.trace = st.trace ++ (Event.clearZ :: d) ∧ ∀ e ∈ d, osEvent e = true := by
  unfold collect_data at h
  obtain ⟨d, h1, h2⟩ := cdLoop_trace_inf c N r add fuel 0 (st.push Event.clearZ) st1 h
  refine ⟨d, ?_, h2⟩
  rw [h1, AlgoState.push]
  simp
theorem cdbind_post {r : CDRes} {f : AlgoState → CDRes} {st1 : AlgoState}
    (h : r.bind f = CDRes.done st1) :
    ∃ s, r = CDRes.done s ∧ f s = CDRes.done st1 := by
  cases r with
  | fuelOut => cases h
  | assertFail s => cases h
  | done s => exact ⟨s, rfl, h⟩
theorem phase_post (c : Ctx) (N r : Nat) (upr : NumInf) (add : Bool) (fuel : Nat)
    (cond : Prop) [Decidable cond] (st st1 : AlgoState)
    (h : (if cond then collect_data c N r upr add fuel st else CDRes.done st)
      = CDRes.done st1) :
    LearnSafe st st1 ∧ TraceExt collectEvent st st1 := by
  split at h
  · obtain ⟨g1, g2, _⟩ := collect_data_post c N r upr add fuel st st1 h
    exact ⟨g1, g2⟩
  · cases h
    exact ⟨learnSafe_refl _, traceExt_refl _ _⟩
theorem collectPhases_post (c : Ctx) (fuel : Nat) (st st1 : AlgoState)
    (h : collectPhases c fuel st = CDRes.done st1) :
    LearnSafe st st1 ∧ TraceExt collectEvent st st1 := by
  unfold collectPhases at h
  obtain ⟨s1, h1, h⟩ := cdbind_post h
  obtain ⟨s2, h2, h3⟩ := cdbind_post h
  obtain ⟨p1a, p1b⟩ := phase_post c _ _ _ _ _ _ st s1 h1
  obtain ⟨p2a, p2b⟩ := phase_post c _ _ _ _ _ _ s1 s2 h2
  obtain ⟨p3a, p3b⟩ := phase_post c _ _ _ _ _ _ s2 st1 h3
  exact ⟨learnSafe_trans p1a (learnSafe_trans p2a p3a),
    traceExt_trans p1b (traceExt_trans p2b p3b)⟩
theorem roundPrelude_post (c : Ctx) (st : AlgoState) :
    (roundPrelude c st).trace = st.trace ++
      [Event.resetTask (c.rng st.rng_count % c.cfg.n_traintasks),
       Event.bufReset (BufRef.encoderRef (c.rng st.rng_count % c.cfg.n_traintasks))] ∧
    (roundPrelude c st).rng_count = st.rng_count + 1 ∧
    (roundPrelude c st).n_train_steps_total = st.n_train_steps_total ∧
    (roundPrelude c st).initial_experience = st.initial_experience ∧
    (roundPrelude c st).RBList_encoder
      = listModify st.RBList_encoder (c.rng st.rng_count % c.cfg.n_traintasks)
          ReplayBuffer.reset := by
  refine ⟨?_, rfl, rfl, rfl, rfl⟩
  show (st.trace ++ [Event.resetTask (c.rng st.rng_count % c.cfg.n_traintasks)])
      ++ [Event.bufReset (BufRef.encoderRef (c.rng st.rng_count % c.cfg.n_traintasks))]
    = _
  simp
theorem samplingRound_post (c : Ctx) (fuel : Nat) (st st1 : AlgoState)
    (h : samplingRound c fuel st = CDRes.done st1) :
    ∃ dr : List Event,
      st1.trace = st.trace ++
        (Event.resetTask (c.rng st.rng_count % c.cfg.n_traintasks) ::
         Event.bufReset (BufRef.encoderRef (c.rng st.rng_count % c.cfg.n_traintasks)) ::
           dr) ∧
      (∀ e ∈ dr, collectEvent e = true) ∧
      st1.rng_count = st.rng_count + 1 ∧
      st1.n_train_steps_total = st.n_train_steps_total ∧
      st1.initial_experience = st.initial_experience := by
  unfold samplingRound at h
  obtain ⟨hs, ha, hb, hc, _⟩ := roundPrelude_post c st
  obtain ⟨⟨l1, l2, _, l4⟩, ⟨d, hd, hde⟩⟩ := collectPhases_post c fuel (roundPrelude c st) st1 h
  refine ⟨d, ?_, hde, by rw [l4, ha], by rw [l1, hb], by rw [l2, hc]⟩
  rw [hd, hs]
  simp
theorem bootLoop_post (c : Ctx) (fuel : Nat) : ∀ idxs (st st1 : AlgoState),
    bootLoop c fuel idxs st = CDRes.done st1 →
      ∃ cs : List (List Event), cs.length = idxs.length ∧
        st1.trace = st.trace ++
          (List.zipWith (fun i cd => Event.resetTask i :: cd) idxs cs).flatten ∧
        (∀ cd ∈ cs, ∀ e ∈ cd, collectEvent e = true) ∧
        st1.n_train_steps_total = st.n_train_steps_total ∧
        st1.initial_experience = st.initial_experience ∧
        st1.rng_count = st.rng_count := by
  intro idxs
  induction idxs with
  | nil =>
      intro st st1 h
      cases h
      exact ⟨[], rfl, by simp, by simp, rfl, rfl, rfl⟩
  | cons idx rest ih =>
      intro st st1 h
      have h2 : (collect_data c c.cfg.num_initial_steps 1 NumInf.inf true fuel
          (AlgoState.push { st with task_idx := idx } (Event.resetTask idx))).bind
          (fun st => bootLoop c fuel rest st) = CDRes.done st1 := h
      obtain ⟨s1, hcd, hrest⟩ := cdbind_post h2
      obtain ⟨⟨l1, l2, _, l4⟩, ⟨d, hd, hde⟩, _⟩ :=
        collect_data_post c _ _ _ _ _ _ _ hcd
      obtain ⟨cs, hlen, htr, hall, m1, m2, m3⟩ := ih s1 st1 hrest
      refine ⟨d :: cs, by simp [hlen], ?_, ?_, ?_, ?_, ?_⟩
      · rw [htr, hd]
        show ((st.trace ++ [Event.resetTask idx]) ++ d) ++ _ = _
        simp
      · intro cd hcd2
        rcases List.mem_cons.mp hcd2 with hcd2 | hcd2
        · intro e he; rw [hcd2] at he; exact hde e he
        · exact hall cd hcd2
      · rw [m1, l1]; rfl
      · rw [m2, l2]; rfl
      · rw [m3, l4]; rfl
theorem roundsLoop_post (c : Ctx) (fuel : Nat) (hn : 0 < c.cfg.n_traintasks) :
    ∀ k (st st1 : AlgoState), roundsLoop c fuel k st = CDRes.done st1 →
      ∃ rcs : List (List Event), rcs.length = k ∧
        st1.trace = st.trace ++ rcs.flatten ∧
        (∀ rc ∈ rcs, ∃ i dr, i < c.cfg.n_traintasks ∧
          rc = Event.resetTask i :: Event.bufReset (BufRef.encoderRef i) :: dr ∧
          ∀ e ∈ dr, collectEvent e = true) ∧
        st1.rng_count = st.rng_count + k ∧
        st1.n_train_steps_total = st.n_train_steps_total ∧
        st1.initial_experience = st.initial_experience := by
  intro k
  induction k with
  | zero =>
      intro st st1 h
      cases h
      exact ⟨[], rfl, by simp, by simp, rfl, rfl, rfl⟩
  | succ k ih =>
      intro st st1 h
      have h2 : (samplingRound c fuel st).bind (fun st => roundsLoop c fuel k st)
          = CDRes.done st1 := h
      obtain ⟨s1, hsr, hrest⟩ := cdbind_post h2
      obtain ⟨dr, hd, hde, m1, m2, m3⟩ := samplingRound_post c fuel st s1 hsr
      obtain ⟨rcs, hlen, htr, hall, g1, g2, g3⟩ := ih s1 st1 hrest
      refine ⟨(Event.resetTask (c.rng st.rng_count % c.cfg.n_traintasks) ::
          Event.bufReset (BufRef.encoderRef (c.rng st.rng_count % c.cfg.n_traintasks)) ::
          dr) :: rcs, by simp [hlen], ?_, ?_, ?_, ?_, ?_⟩
      · rw [htr, hd]
        simp
      · intro rc hrc
        rcases List.mem_cons.mp hrc with hrc | hrc
        · exact ⟨_, dr, Nat.mod_lt _ hn, hrc, hde⟩
        · exact hall rc hrc
      · rw [g1, m1]; omega
      · rw [g2, m2]
      · rw [g3, m3]
theorem gradLoop_post (c : Ctx) : ∀ k (st : AlgoState),
    (gradLoop c k st).n_train_steps_total = st.n_train_steps_total + k ∧
    (gradLoop c k st).initial_experience = st.initial_experience ∧
    (gradLoop c k st).trace = st.trace ++ List.replicate k Event.doTrain := by
  intro k
  induction k with
  | zero =>
      intro st
      exact ⟨rfl, rfl, by simp [gradLoop]⟩
  | succ k ih =>
      intro st
      have e : gradLoop c (k + 1) st = gradLoop c k
          { st with rng_count := st.rng_count + c.cfg.meta_batch,
                    n_train_steps_total := st.n_train_steps_total + 1,
                    trace := st.trace ++ [Event.doTrain] } := rfl
      obtain ⟨a, b, tr⟩ := ih
        { st with rng_count := st.rng_count + c.cfg.meta_batch,
                  n_train_steps_total := st.n_train_steps_total + 1,
                  trace := st.trace ++ [Event.doTrain] }
      rw [e, a, b, tr]
      refine ⟨?_, rfl, ?_⟩
      · show st.n_train_steps_total + 1 + k = st.n_train_steps_total + (k + 1)
        omega
      · show (st.trace ++ [Event.doTrain]) ++ List.replicate k Event.doTrain
          = st.trace ++ List.replicate (k + 1) Event.doTrain
        simp [List.replicate_succ]
/-- C2: each `learn()` invocation runs exactly one meta-iteration. The
bootstrap runs only when no initial experience has been collected yet
(prior reset, `sample_z`, context clear, then one `resetTask i` plus
collection block for every training-task index in order), and afterwards
`initial_experience` is true so it never runs again; then exactly
`num_tasks_sample` sampling rounds run, each opening with a `resetTask i`
for a sampled index `i < n_traintasks` immediately followed by the reset of
that task's encoder buffer before any collection event; then the gradient
phase emits exactly `num_train_steps_per_itr` training steps and increments
`_n_train_steps_total` by exactly that amount. -/
theorem learn_single_meta_iteration_spec (c : Ctx) (fuel : Nat) (st st1 : AlgoState)
    (hn : 0 < c.cfg.n_traintasks) (h : learn c fuel st = CDRes.done st1) :
    st1.initial_experience = true ∧
    st1.n_train_steps_total = st.n_train_steps_total + c.cfg.num_train_steps_per_itr ∧
    ∃ db dr : List Event,
      st1.trace = st.trace ++ db ++ dr ++
        List.replicate c.cfg.num_train_steps_per_itr Event.doTrain ∧
      (st.initial_experience = true → db = []) ∧
      (st.initial_experience = false →
        ∃ cs : List (List Event), cs.length = c.cfg.n_traintasks ∧
          db = Event.setZPrior :: Event.sampleZ :: Event.setContextNone ::
            (List.zipWith (fun i cd => Event.resetTask i :: cd)
              (List.range c.cfg.n_traintasks) cs).flatten ∧
          ∀ cd ∈ cs, ∀ e ∈ cd, collectEvent e = true) ∧
      (∃ rcs : List (List Event), rcs.length = c.cfg.num_tasks_sample ∧
        dr = rcs.flatten ∧
        ∀ rc ∈ rcs, ∃ i dd, i < c.cfg.n_traintasks ∧
          rc = Event.resetTask i :: Event.bufReset (BufRef.encoderRef i) :: dd ∧
          ∀ e ∈ dd, collectEvent e = true) := by
  unfold learn at h
  by_cases hinit : st.initial_experience = false
  · rw [if_pos hinit] at h
    have h2 : ((bootLoop c fuel (List.range c.cfg.n_traintasks)
        (((st.push Event.setZPrior).push Event.sampleZ).push Event.setContextNone)).bind
        fun s => CDRes.done { s with initial_experience := true }).bind (fun s =>
          (roundsLoop c fuel c.cfg.num_tasks_sample s).bind fun s =>
            CDRes.done (gradLoop c c.cfg.num_train_steps_per_itr s)) = CDRes.done st1 := h
    obtain ⟨sA, hA, h3⟩ := cdbind_post h2
    obtain ⟨sB, hBoot, hSet⟩ := cdbind_post hA
    cases hSet
    obtain ⟨sC, hRounds, hGrad⟩ := cdbind_post h3
    cases hGrad
    obtain ⟨cs, hcsLen, hBtr, hcsAll, hb1, hb2, hb3⟩ :=
      bootLoop_post c fuel (List.range c.cfg.n_traintasks) _ _ hBoot
    obtain ⟨rcs, hrcsLen, hRtr, hrcsAll, hr1, hr2, hr3⟩ :=
      roundsLoop_post c fuel hn c.cfg.num_tasks_sample _ _ hRounds
    obtain ⟨hg1, hg2, hg3⟩ := gradLoop_post c c.cfg.num_train_steps_per_itr sC
    refine ⟨by rw [hg2, hr3], ?_, ?_⟩
    · rw [hg1, hr2]
      show sB.n_train_steps_total + _ = _
      rw [hb1]
      rfl
    · refine ⟨Event.setZPrior :: Event.sampleZ :: Event.setContextNone ::
        (List.zipWith (fun i cd => Event.resetTask i :: cd)
          (List.range c.cfg.n_traintasks) cs).flatten, rcs.flatten, ?_, ?_, ?_,
        ⟨rcs, hrcsLen, rfl, hrcsAll⟩⟩
      · rw [hg3, hRtr]
        show (sB.trace ++ rcs.flatten) ++ _ = _
        rw [hBtr]
        show ((((st.trace ++ [Event.setZPrior]) ++ [Event.sampleZ])
          ++ [Event.setContextNone]) ++ _) ++ rcs.flatten ++ _ = _
        simp
      · intro hT
        rw [hinit] at hT
        cases hT
      · intro _
        exact ⟨cs, by rw [hcsLen, List.length_range], rfl, hcsAll⟩
  · have hi : st.initial_experience = true := by
      revert hinit
      cases st.initial_experience <;> simp
    rw [if_neg hinit] at h
    have h2 : ((roundsLoop c fuel c.cfg.num_tasks_sample st).bind fun s =>
        CDRes.done (gradLoop c c.cfg.num_train_steps_per_itr s)) = CDRes.done st1 := h
    obtain ⟨sC, hRounds, hGrad⟩ := cdbind_post h2
    cases hGrad
    obtain ⟨rcs, hrcsLen, hRtr, hrcsAll, hr1, hr2, hr3⟩ :=
      roundsLoop_post c fuel hn c.cfg.num_tasks_sample _ _ hRounds
    obtain ⟨hg1, hg2, hg3⟩ := gradLoop_post c c.cfg.num_train_steps_per_itr sC
    refine ⟨by rw [hg2, hr3, hi], by rw [hg1, hr2], [], rcs.flatten, ?_,
      fun _ => rfl, ?_, ⟨rcs, hrcsLen, rfl, hrcsAll⟩⟩
    · rw [hg3, hRtr]
      simp
    · intro hF
      rw [hF] at hi
      cases hi
/-- C1: for every completed `collect_data(num_samples = N, ...)` call with
`N > 0`, the total number of transitions counted is a multiple of
`max_path_length` that is at least `N` (whole trajectories only; the
orchestrator accounts `max_path_length` per trajectory), and
`_n_env_steps_total` grows by exactly that multiple — the contribution of
this call only, on top of whatever the counter held before. -/
theorem collect_data_counts_spec (c : Ctx) (N r : Nat) (upr : NumInf) (add : Bool)
    (fuel : Nat) (st st1 : AlgoState) (_hN : 0 < N)
    (h : collect_data c N r upr add fuel st = CDRes.done st1) :
    ∃ m, m % c.cfg.max_path_length = 0 ∧ N ≤ m ∧
      st1.n_env_steps_total = st.n_env_steps_total + m :=
  (collect_data_post c N r upr add fuel st st1 h).2.2
/-- C4: a `collect_rollouts` result with `continue_training = false` (which
only the `on_step() is False` early return produces) carries the literal
`0.0` mean reward, and the final `_episode_num` counts exactly the
episodes completed before the cancellation (`ret.total_episodes`) — the
in-flight episode is not recorded; and when the per-step hook never
returns exactly `False` (it returns `None`, a truthy value, or raises),
the rollout runs to completion with `continue_training = true`. -/
theorem on_step_false_cancels_spec :
    (∀ (c : Ctx) (ne : Nat) (ns : Int) (ac : Bool) (bufs : List BufRef) (fuel : Nat)
        (st st1 : AlgoState) (ret : RolloutReturn),
      collect_rollouts c ne ns ac bufs fuel st = some (ret, st1) →
      ret.continue_training = false →
        ret.mean_reward = 0 ∧ st1.episode_num = st.episode_num + ret.total_episodes) ∧
    (∀ (c : Ctx) (ne : Nat) (ns : Int) (ac : Bool) (bufs : List BufRef) (fuel : Nat)
        (st st1 : AlgoState) (ret : RolloutReturn), CancelFree c.cb →
      collect_rollouts c ne ns ac bufs fuel st = some (ret, st1) →
      ret.continue_training = true) := by
  constructor
  · intro c ne ns ac bufs fuel st st1 ret h hf
    obtain ⟨_, _, hn, hm⟩ := collect_rollouts_post c ne ns ac bufs fuel st ret st1 h
    exact ⟨hm hf, hn⟩
  · intro c ne ns ac bufs fuel st st1 ret hfree h
    exact collect_rollouts_continue c ne ns ac bufs fuel st ret st1 hfree h
/-- C5: during every completed `collect_data` call the actor's latent
context is cleared (`clear_z`) exactly once, before any other collection
event (the events following the leading `clearZ` are `osEvent`s /
posterior updates, never another `clearZ`); when `update_posterior_rate`
is finite the trace after `clearZ` is a sequence of `obtain_samples`
blocks each followed by exactly one `infer_posterior`, and when it is
infinite no `infer_posterior` occurs at all; and inside `obtain_samples`
(for `0 < resample`) `sample_z` fires exactly after every `resample`-th
completed trajectory, as described by `cadenceBlocks`. -/
theorem latent_context_cadence_spec :
    (∀ (c : Ctx) (N r : Nat) (upr : NumInf) (add : Bool) (fuel : Nat)
        (st st1 : AlgoState), collect_data c N r upr add fuel st = CDRes.done st1 →
      ((upr = NumInf.inf → ∃ d, st1.trace = st.trace ++ (Event.clearZ :: d) ∧
          ∀ e ∈ d, osEvent e = true) ∧
       (upr ≠ NumInf.inf → ∃ blocks : List (List Event),
          st1.trace = st.trace ++ (Event.clearZ ::
            (blocks.map (fun b => b ++ [Event.inferPosterior])).flatten) ∧
          ∀ b ∈ blocks, ∀ e ∈ b, osEvent e = true))) ∧
    (∀ (c : Ctx) (ms mt : NumInf) (ac : Bool) (resample : Nat) (bufs : List BufRef)
        (fuel : Nat) (st : AlgoState) (n : Nat) (st1 : AlgoState), 0 < resample →
      obtain_samples c ms mt ac resample bufs fuel st = OSRes.ok n st1 →
      ∃ bs : List (List Event), st1.trace = st.trace ++ cadenceBlocks resample 0 bs ∧
        n = bs.length * c.cfg.max_path_length ∧
        ∀ b ∈ bs, ∀ e ∈ b, rolloutFullEvent e = true) := by
  constructor
  · intro c N r upr add fuel st st1 h
    constructor
    · intro hinf
      subst hinf
      exact collect_data_trace_inf c N r add fuel st st1 h
    · intro hfin
      exact collect_data_trace_fin c N r upr add fuel st st1 hfin h
  · intro c ms mt ac resample bufs fuel st n st1 hres h
    exact obtain_samples_cadence c hres h
/-- C6: buffer-pool setup produces exactly `n_traintasks` replay buffers,
`n_traintasks` encoder buffers and `n_evaltasks` eval buffers, each fresh
(zero stored transitions) and with independent identity (overwriting one
slot leaves every other slot unchanged); and `reset_buffers` leaves every
slot of all three pools with zero stored transitions regardless of prior
fill state. -/
theorem buffer_pools_spec (cfg : Config) (st : AlgoState) :
    (setup_model_buffers cfg st).RBList_replay.length = cfg.n_traintasks ∧
    (setup_model_buffers cfg st).RBList_encoder.length = cfg.n_traintasks ∧
    (setup_model_buffers cfg st).RBList_eval.length = cfg.n_evaltasks ∧
    (∀ b ∈ (setup_model_buffers cfg st).RBList_replay, b.stored = []) ∧
    (∀ b ∈ (setup_model_buffers cfg st).RBList_encoder, b.stored = []) ∧
    (∀ b ∈ (setup_model_buffers cfg st).RBList_eval, b.stored = []) ∧
    (∀ (i j : Nat) (b : ReplayBuffer), i ≠ j →
      ((setup_model_buffers cfg st).RBList_replay.set i b)[j]?
        = (setup_model_buffers cfg st).RBList_replay[j]?) ∧
    (∀ b ∈ (reset_buffers cfg st).RBList_replay, b.stored = []) ∧
    (∀ b ∈ (reset_buffers cfg st).RBList_encoder, b.stored = []) ∧
    (∀ b ∈ (reset_buffers cfg st).RBList_eval, b.stored = []) := by
  refine ⟨by simp [setup_model_buffers], by simp [setup_model_buffers],
    by simp [setup_model_buffers], ?_, ?_, ?_, ?_, ?_, ?_, ?_⟩
  · intro b hb
    rw [List.eq_of_mem_replicate hb]
    rfl
  · intro b hb
    rw [List.eq_of_mem_replicate hb]
    rfl
  · intro b hb
    rw [List.eq_of_mem_replicate hb]
    rfl
  · intro i j b hij
    exact List.getElem?_set_ne hij
  · intro b hb
    obtain ⟨a, _, ha⟩ := List.mem_map.mp hb
    rw [← ha]
    rfl
  · intro b hb
    obtain ⟨a, _, ha⟩ := List.mem_map.mp hb
    rw [← ha]
    rfl
  · intro b hb
    obtain ⟨a, _, ha⟩ := List.mem_map.mp hb
    rw [← ha]
    rfl
/-- C7: `obtain_samples` with both `max_samples` and `max_trajs` infinite
fails its configuration assertion before any environment interaction — the
carried state is the unchanged input state (no trace event, no buffer
write, no actor call); with at least one bound finite the assertion never
fires. -/
theorem obtain_samples_precondition_spec (c : Ctx) (ms mt : NumInf) (ac : Bool)
    (resample : Nat) (bufs : List BufRef) (fuel : Nat) (st : AlgoState) :
    (ms = NumInf.inf ∧ mt = NumInf.inf →
      obtain_samples c ms mt ac resample bufs fuel st = OSRes.assertFail st) ∧
    ((ms ≠ NumInf.inf ∨ mt ≠ NumInf.inf) →
      ∀ s1, obtain_samples c ms mt ac resample bufs fuel st ≠ OSRes.assertFail s1) := by
  constructor
  · rintro ⟨h1, h2⟩
    subst h1
    subst h2
    exact obtain_samples_assert c ac resample bufs fuel st
  · exact obtain_samples_no_assert c ac resample bufs fuel st
/-- C8: when every per-step hook invocation raises (either `update_locals`
raises or `on_step` raises), `collect_rollouts` behaves exactly as if the
callback were the silent no-op callback — the exceptions are caught and
ignored at the call sites, the rollout proceeds to completion, and any
returned `RolloutReturn` has `continue_training = true` (the hook
exceptions never propagate and never cancel). The `on_rollout_start` /
`on_rollout_end` raise flags are unrestricted, so exceptions in those
hooks are covered as well. -/
theorem hook_exceptions_ignored_spec (c : Ctx) (ne : Nat) (ns : Int) (ac : Bool)
    (bufs : List BufRef) (fuel : Nat) (st : AlgoState)
    (hraise : ∀ k, c.cb.update_locals_raises k = true
      ∨ c.cb.on_step k = HookRet.retRaises) :
    collect_rollouts c ne ns ac bufs fuel st
      = collect_rollouts { c with cb := silentCallback } ne ns ac bufs fuel st ∧
    ∀ ret st1, collect_rollouts c ne ns ac bufs fuel st = some (ret, st1) →
      ret.continue_training = true := by
  have hfree : CancelFree c.cb := by
    intro k hcon
    rcases hraise k with hr | hr
    · rw [hcon.1] at hr
      cases hr
    · rw [hcon.2] at hr
      cases hr
  have hfree2 : CancelFree silentCallback := by
    intro k hcon
    cases hcon.2
  constructor
  · exact collect_rollouts_cb_congr c silentCallback ne ns ac bufs fuel st hfree hfree2
  · intro ret st1 h
    exact collect_rollouts_continue c ne ns ac bufs fuel st ret st1 hfree h
/-- C9: when the per-step hook cancels (its `update_locals` does not raise
and `on_step` returns exactly `False`), the step loop of
`collect_rollouts` returns immediately: the cancelling step's transition
has been written to none of the supplied replay buffers (all three pools
are exactly as they were when the step began), while `num_timesteps` and
the returned `total_steps` have already been incremented for that step. -/
theorem cancel_step_not_buffered_spec (c : Ctx) (ac : Bool) (bufs : List BufRef)
    (ns : Int) (fuel : Nat) (epR : Int) (epS : Nat) (rs : RState)
    (hupd : c.cb.update_locals_raises (rs.st.num_timesteps + 1) = false)
    (hstep : c.cb.on_step (rs.st.num_timesteps + 1) = HookRet.retFalse) :
    ∃ st1, innerLoop c ac bufs ns (fuel + 1) false epR epS rs
        = some (EpExit.cancelled
            { mean_reward := 0, total_steps := rs.total_steps + 1,
              total_episodes := rs.total_episodes, continue_training := false } st1) ∧
      st1.RBList_replay = rs.st.RBList_replay ∧
      st1.RBList_encoder = rs.st.RBList_encoder ∧
      st1.RBList_eval = rs.st.RBList_eval ∧
      st1.num_timesteps = rs.st.num_timesteps + 1 := by
  obtain ⟨_, _, _, h4, h5, h6, h7⟩ :=
    stepEffects_post c ac rs.total_steps rs.o (c.policy rs.o) rs.st
  have hcan : c.cb.update_locals_raises
      (stepEffects c ac rs.total_steps rs.o (c.policy rs.o) rs.st).num_timesteps
        = false ∧
      c.cb.on_step
        (stepEffects c ac rs.total_steps rs.o (c.policy rs.o) rs.st).num_timesteps
        = HookRet.retFalse := ⟨by rw [h4]; exact hupd, by rw [h4]; exact hstep⟩
  refine ⟨stepEffects c ac rs.total_steps rs.o (c.policy rs.o) rs.st, ?_, h5, h6, h7, h4⟩
  rw [innerLoop, if_neg (by simp)]
  simp only []
  rw [if_pos hcan]
/-- C10: every `collect_rollouts` invocation appends to the environment
trace exactly one `envReset` before any stepping: the appended events are
an optional gSDE `resetNoise`, then the single `envReset`, then only
step-loop events (`rolloutEvent` excludes `envReset`), so every rollout
starts from a freshly reset environment and no episode spans two calls. -/
theorem collect_rollouts_resets_env_once_spec (c : Ctx) (ne : Nat) (ns : Int)
    (ac : Bool) (bufs : List BufRef) (fuel : Nat) (st st1 : AlgoState)
    (ret : RolloutReturn)
    (h : collect_rollouts c ne ns ac bufs fuel st = some (ret, st1)) :
    ∃ d1 d2 : List Event,
      st1.trace = st.trace ++ d1 ++ (Event.envReset :: d2) ∧
      (∀ e ∈ d1, e = Event.resetNoise) ∧
      (∀ e ∈ d2, rolloutEvent e = true) :=
  (collect_rollouts_post c ne ns ac bufs fuel st ret st1 h).1
/-- C3 counterexample: a one-step rollout in which the environment's `done`
flag and the `n_steps` truncation bound coincide on the same (single) step.
Exactly one episode ends, yet the rollout reports `total_episodes = 2` and
`_episode_num` advances from `0` to `2`: the episode-end bookkeeping ran
twice (once in the break branch, once in the `if done:` branch), refuting
the claim that a coinciding episode end increments the counters and records
the episode exactly once. -/
theorem collect_rollouts_coincident_double_count :
    coincide_total_steps = 1 ∧ coincide_total_episodes = 2 ∧
    coincide_episode_num = 2 :=
  ⟨rfl, rfl, rfl⟩
/-- C3 amended: in `collect_rollouts`, an episode that ends by the `done`
flag alone (the inner loop exits by its `while not done` condition) or by
the `n_steps` truncation alone (break with `done` false) increments
`total_episodes` and `_episode_num` and records the episode's reward
exactly once; but when `done` and the truncation bound coincide on the
same step (break with `done` true), the counters are incremented twice and
the episode's statistics are recorded twice. -/
theorem episode_end_counting_amended (c : Ctx) (ac : Bool) (bufs : List BufRef)
    (ns : Int) (fuel : Nat) (rs : RState) :
    (∀ epR epS rs2, innerLoop c ac bufs ns fuel false 0 0 rs
        = some (EpExit.viaCond epR epS rs2) →
      runEpisode c ac bufs ns fuel rs
        = some (EpRes.finished (recordEpisode epR epS rs2)) ∧
      (recordEpisode epR epS rs2).total_episodes = rs.total_episodes + 1 ∧
      (recordEpisode epR epS rs2).st.episode_num = rs.st.episode_num + 1 ∧
      (recordEpisode epR epS rs2).episode_rewards.length
        = rs.episode_rewards.length + 1) ∧
    (∀ epR epS rs2, innerLoop c ac bufs ns fuel false 0 0 rs
        = some (EpExit.viaBreak false epR epS rs2) →
      runEpisode c ac bufs ns fuel rs = some (EpRes.finished rs2) ∧
      rs2.total_episodes = rs.total_episodes + 1 ∧
      rs2.st.episode_num = rs.st.episode_num + 1 ∧
      rs2.episode_rewards.length = rs.episode_rewards.length + 1) ∧
    (∀ epR epS rs2, innerLoop c ac bufs ns fuel false 0 0 rs
        = some (EpExit.viaBreak true epR epS rs2) →
      runEpisode c ac bufs ns fuel rs
        = some (EpRes.finished (recordEpisode epR epS rs2)) ∧
      (recordEpisode epR epS rs2).total_episodes = rs.total_episodes + 2 ∧
      (recordEpisode epR epS rs2).st.episode_num = rs.st.episode_num + 2 ∧
      (recordEpisode epR epS rs2).episode_rewards.length
        = rs.episode_rewards.length + 2) := by
  refine ⟨?_, ?_, ?_⟩
  · intro epR epS rs2 h
    obtain ⟨_, _, hn, he, hr, _⟩ := innerLoop_post c ac bufs ns fuel false 0 0 rs _ h
    refine ⟨by unfold runEpisode; rw [h], ?_, ?_, ?_⟩
    · show rs2.total_episodes + 1 = rs.total_episodes + 1
      rw [he]
    · show rs2.st.episode_num + 1 = rs.st.episode_num + 1
      rw [hn]
    · show (rs2.episode_rewards ++ [epR]).length = rs.episode_rewards.length + 1
      rw [hr]
      simp
  · intro epR epS rs2 h
    obtain ⟨_, _, hn, he, r, s, hr, _⟩ := innerLoop_post c ac bufs ns fuel false 0 0 rs _ h
    refine ⟨?_, he, hn, by rw [hr]; simp⟩
    unfold runEpisode
    rw [h]
    rfl
  · intro epR epS rs2 h
    obtain ⟨_, _, hn, he, r, s, hr, _⟩ := innerLoop_post c ac bufs ns fuel false 0 0 rs _ h
    refine ⟨by unfold runEpisode; rw [h]; rfl, ?_, ?_, ?_⟩
    · show rs2.total_episodes + 1 = rs.total_episodes + 2
      rw [he]
    · show rs2.st.episode_num + 1 = rs.st.episode_num + 2
      rw [hn]
    · show (rs2.episode_rewards ++ [epR]).length = rs.episode_rewards.length + 2
      rw [hr]
      simp
/-- Witness for C1 at a concrete call (`N = 3`, `max_path_length = 2`). -/
theorem collect_data_counts_spec_witness :
    ∃ m, m % cT.cfg.max_path_length = 0 ∧ 3 ≤ m ∧
      w1st.n_env_steps_total = st0.n_env_steps_total + m :=
  collect_data_counts_spec cT 3 1 (NumInf.fin 1) true 30 st0 w1st (by decide) rfl
/-- Witness for C2 at a concrete `learn` call on a fresh instance. -/
theorem learn_single_meta_iteration_spec_witness :
    w2st.initial_experience = true ∧
    w2st.n_train_steps_total
      = st0.n_train_steps_total + cT.cfg.num_train_steps_per_itr ∧
    ∃ db dr : List Event,
      w2st.trace = st0.trace ++ db ++ dr ++
        List.replicate cT.cfg.num_train_steps_per_itr Event.doTrain ∧
      (st0.initial_experience = true → db = []) ∧
      (st0.initial_experience = false →
        ∃ cs : List (List Event), cs.length = cT.cfg.n_traintasks ∧
          db = Event.setZPrior :: Event.sampleZ :: Event.setContextNone ::
            (List.zipWith (fun i cd => Event.resetTask i :: cd)
              (List.range cT.cfg.n_traintasks) cs).flatten ∧
          ∀ cd ∈ cs, ∀ e ∈ cd, collectEvent e = true) ∧
      (∃ rcs : List (List Event), rcs.length = cT.cfg.num_tasks_sample ∧
        dr = rcs.flatten ∧
        ∀ rc ∈ rcs, ∃ i dd, i < cT.cfg.n_traintasks ∧
          rc = Event.resetTask i :: Event.bufReset (BufRef.encoderRef i) :: dd ∧
          ∀ e ∈ dd, collectEvent e = true) :=
  learn_single_meta_iteration_spec cT 60 st0 w2st (by decide) rfl
/-- Witness for C4: a concrete cancellation and a concrete clean rollout. -/
theorem on_step_false_cancels_spec_witness :
    (w4ret.mean_reward = 0 ∧
      w4st.episode_num = st0.episode_num + w4ret.total_episodes) ∧
    w4ret2.continue_training = true :=
  ⟨on_step_false_cancels_spec.1 cCancel 1 2 false [BufRef.replayRef 0] 20 st0 w4st
      w4ret rfl rfl,
   on_step_false_cancels_spec.2 cT 1 2 false [] 20 st0 w4st2 w4ret2
      (fun _ hcon => by cases hcon.2) rfl⟩
/-- Witness for C5 at concrete calls (finite posterior rate; `resample = 1`). -/
theorem latent_context_cadence_spec_witness :
    (∃ blocks : List (List Event),
      w5st.trace = st0.trace ++ (Event.clearZ ::
        (blocks.map (fun b => b ++ [Event.inferPosterior])).flatten) ∧
      ∀ b ∈ blocks, ∀ e ∈ b, osEvent e = true) ∧
    (∃ bs : List (List Event),
      w5ost.trace = st0.trace ++ cadenceBlocks 1 0 bs ∧
      4 = bs.length * cT.cfg.max_path_length ∧
      ∀ b ∈ bs, ∀ e ∈ b, rolloutFullEvent e = true) :=
  ⟨(latent_context_cadence_spec.1 cT 3 1 (NumInf.fin 1) true 30 st0 w5st rfl).2
      (by decide),
   latent_context_cadence_spec.2 cT (NumInf.fin 3) NumInf.inf false 1 [] 20 st0 4 w5ost
      (by decide) rfl⟩
/-- Witness for C6's slot-independence hypothesis at concrete indices. -/
theorem buffer_pools_spec_witness :
    ((setup_model_buffers testConfig st0).RBList_replay.set 0 (ReplayBuffer.init 9))[1]?
      = (setup_model_buffers testConfig st0).RBList_replay[1]? :=
  (buffer_pools_spec testConfig st0).2.2.2.2.2.2.1 0 1 (ReplayBuffer.init 9) (by decide)
/-- Witness for C7 at concrete bounds. -/
theorem obtain_samples_precondition_spec_witness :
    obtain_samples cT NumInf.inf NumInf.inf false 1 [] 5 st0
      = OSRes.assertFail st0 ∧
    obtain_samples cT (NumInf.fin 2) NumInf.inf false 1 [] 20 st0
      ≠ OSRes.assertFail st0 :=
  ⟨(obtain_samples_precondition_spec cT NumInf.inf NumInf.inf false 1 [] 5 st0).1
      ⟨rfl, rfl⟩,
   (obtain_samples_precondition_spec cT (NumInf.fin 2) NumInf.inf false 1 [] 20 st0).2
      (Or.inl (by decide)) st0⟩
/-- Witness for C8 with a callback whose hooks all raise. -/
theorem hook_exceptions_ignored_spec_witness :
    (collect_rollouts cRaise 1 2 false [] 20 st0
      = collect_rollouts { cRaise with cb := silentCallback } 1 2 false [] 20 st0) ∧
    w8ret.continue_training = true :=
  ⟨(hook_exceptions_ignored_spec cRaise 1 2 false [] 20 st0 (fun _ => Or.inl rfl)).1,
   (hook_exceptions_ignored_spec cRaise 1 2 false [] 20 st0 (fun _ => Or.inl rfl)).2
      w8ret w8st rfl⟩
/-- Witness for C9 at a concrete cancelling step. -/
theorem cancel_step_not_buffered_spec_witness :
    ∃ st1, innerLoop cCancel false [BufRef.replayRef 0] 2 (9 + 1) false 0 0 rsW9
        = some (EpExit.cancelled
            { mean_reward := 0, total_steps := rsW9.total_steps + 1,
              total_episodes := rsW9.total_episodes, continue_training := false } st1) ∧
      st1.RBList_replay = rsW9.st.RBList_replay ∧
      st1.RBList_encoder = rsW9.st.RBList_encoder ∧
      st1.RBList_eval = rsW9.st.RBList_eval ∧
      st1.num_timesteps = rsW9.st.num_timesteps + 1 :=
  cancel_step_not_buffered_spec cCancel false [BufRef.replayRef 0] 2 9 0 0 rsW9 rfl rfl
/-- Witness for C10 at a concrete rollout. -/
theorem collect_rollouts_resets_env_once_spec_witness :
    ∃ d1 d2 : List Event,
      w10st.trace = st0.trace ++ d1 ++ (Event.envReset :: d2) ∧
      (∀ e ∈ d1, e = Event.resetNoise) ∧
      (∀ e ∈ d2, rolloutEvent e = true) :=
  collect_rollouts_resets_env_once_spec cT 1 2 false [] 20 st0 w10st w10ret rfl
/-- Witness for the C3 amended theorem at the concrete coincident-end
episode. -/
theorem episode_end_counting_amended_witness :
    (runEpisode cDone false [] 1 10 rsW3
      = some (EpRes.finished (recordEpisode innerW_epR innerW_epS innerW_rs2))) ∧
    (recordEpisode innerW_epR innerW_epS innerW_rs2).total_episodes
      = rsW3.total_episodes + 2 ∧
    (recordEpisode innerW_epR innerW_epS innerW_rs2).st.episode_num
      = rsW3.st.episode_num + 2 ∧
    (recordEpisode innerW_epR innerW_epS innerW_rs2).episode_rewards.length
      = rsW3.episode_rewards.length + 2 :=
  (episode_end_counting_amended cDone false [] 1 10 rsW3).2.2 innerW_epR innerW_epS
    innerW_rs2 rfl
end MetaOffPolicy
